import Mathlib

/-!
# README splice and digest orchestration of `github-readme-stats`

A shallow embedding of `cmd/root.go`: the root command (`rootCmd.RunE`) and
`updateReadme`, together with the part of Go's `regexp` package that
`updateReadme` relies on (leftmost-first matching, `ReplaceAllString` and its
`$` template expansion).

Go strings are modelled as lists of characters (`Text`).  The pattern used by
`updateReadme` consists of ASCII literals and `.` under the `s` flag, so a
match can only begin and end at a rune boundary and matching rune by rune is
matching unit by unit.
-/

namespace ReadmeStats

/-- A Go string, as the sequence of its characters. -/
abbrev Text := List Char

/-! ## The regular expression engine (Go `regexp`, leftmost-first) -/

/-- Capture groups recorded during a match: group number and captured text,
most recent first. -/
abbrev Caps := List (Nat × Text)

/-- The constructs of Go's regular expression syntax that the pattern of
`updateReadme` uses. -/
inductive Regex where
  /-- The empty pattern. -/
  | eps : Regex
  /-- A literal character. -/
  | lit : Char → Regex
  /-- `.` under the `s` flag: any character, newline included. -/
  | any : Regex
  /-- Concatenation. -/
  | cat : Regex → Regex → Regex
  /-- `r?`: prefers one occurrence over none. -/
  | opt : Regex → Regex
  /-- `r*?`: prefers fewer repetitions. -/
  | lazyStar : Regex → Regex
  /-- `(r)`: a numbered capture group. -/
  | group : Nat → Regex → Regex
  deriving DecidableEq, Repr

/-- A continuation of the backtracking matcher: it receives the text consumed
so far by the construct, the groups it captured and the remaining input. -/
abbrev Cont (α : Type) := Text → Caps → Text → Option α

/-- The loop of `r*?`: first try to stop, then try one more repetition.  The
counter bounds the number of repetitions by the length of the input, which is
exact for a body that consumes input (here `.`). -/
def lazyLoop {α : Type} (body : Text → Cont α → Option α) (k : Cont α) :
    Nat → Text → Caps → Text → Option α
  | 0, a, c, s => k a c s
  | n + 1, a, c, s =>
    (k a c s).orElse fun _ =>
      body s (fun b c₁ s₁ => lazyLoop body k n (a ++ b) (c₁ ++ c) s₁)

/-- Backtracking matcher in continuation-passing style.  Alternatives are
tried in the priority order of Go's leftmost-first semantics; the first
success is the result. -/
def Regex.run {α : Type} : Regex → Text → Cont α → Option α
  | .eps, s, k => k [] [] s
  | .lit c, s, k =>
    match s with
    | x :: xs => if x = c then k [x] [] xs else none
    | [] => none
  | .any, s, k =>
    match s with
    | x :: xs => k [x] [] xs
    | [] => none
  | .cat r₁ r₂, s, k =>
    r₁.run s (fun a c₁ s₁ => r₂.run s₁ (fun b c₂ s₂ => k (a ++ b) (c₂ ++ c₁) s₂))
  | .opt r, s, k => (r.run s k).orElse fun _ => k [] [] s
  | .lazyStar r, s, k => lazyLoop (fun s₁ k₁ => r.run s₁ k₁) k s.length [] [] s
  | .group i r, s, k => r.run s (fun a c s₁ => k a ((i, a) :: c) s₁)

/-- A match found in a text: the text before it, the matched text (group 0),
the numbered groups and the text after it. -/
structure Match where
  pre : Text
  whole : Text
  caps : Caps
  rest : Text
  deriving DecidableEq, Repr

/-- The match of `re` that starts at the very beginning of `s`, if any. -/
def Regex.matchAt (re : Regex) (s : Text) : Option (Text × Caps × Text) :=
  re.run s (fun a c rest => some (a, c, rest))

/-- The leftmost match of `re` in `s`: start positions are tried from left to
right. -/
def Regex.find (re : Regex) : Text → Option Match
  | [] =>
    match re.matchAt [] with
    | some (a, c, rest) => some ⟨[], a, c, rest⟩
    | none => none
  | x :: xs =>
    match re.matchAt (x :: xs) with
    | some (a, c, rest) => some ⟨[], a, c, rest⟩
    | none =>
      match Regex.find re xs with
      | some m => some { m with pre := x :: m.pre }
      | none => none

/-- The pattern for a literal string. -/
def Regex.str : Text → Regex
  | [] => .eps
  | c :: t => .cat (.lit c) (Regex.str t)

/-- Concatenation of a sequence of patterns. -/
def Regex.seq : List Regex → Regex
  | [] => .eps
  | r :: rs => .cat r (Regex.seq rs)

/-! ## Template expansion and `ReplaceAllString` -/

/-- Go's `strings.Cut(template, "$")`: the text before and after the first
`$`, if there is one. -/
def cutDollar : Text → Option (Text × Text)
  | [] => none
  | c :: t =>
    if c = '$' then some ([], t)
    else
      match cutDollar t with
      | some (before, after) => some (c :: before, after)
      | none => none

/-- The characters of a group name in a template: `unicode.IsLetter`,
`unicode.IsDigit` or `_`.  The Unicode tables are not part of the program and
are taken as the parameter `letterOrDigit`. -/
def isNameRune (letterOrDigit : Char → Bool) (c : Char) : Bool :=
  letterOrDigit c || c == '_'

/-- The number parsed from a name by `extract`: `none` stands for Go's `-1`
(not all ASCII digits, too long, or a leading zero). -/
def parseNum (name : Text) : Option Nat :=
  let num : Option Nat := name.foldl
    (fun acc b =>
      match acc with
      | none => none
      | some n =>
        if b < '0' ∨ '9' < b ∨ n ≥ 100000000 then none
        else some (n * 10 + (b.toNat - '0'.toNat)))
    (some 0)
  if name.head? = some '0' ∧ name.length > 1 then none else num

/-- Go's `regexp.extract`: the name from a leading `name` or `{name}` (the `$`
already removed), the number it denotes if any, and the rest of the
template. -/
def extract (letterOrDigit : Char → Bool) (str : Text) : Option (Text × Option Nat × Text) :=
  match str with
  | [] => none
  | c0 :: t0 =>
    let brace : Bool := c0 == '\x7b'
    let str1 : Text := if brace then t0 else c0 :: t0
    let name := str1.takeWhile (isNameRune letterOrDigit)
    let after := str1.dropWhile (isNameRune letterOrDigit)
    if name = [] then none
    else if brace then
      match after with
      | '\x7d' :: rest => some (name, parseNum name, rest)
      | _ => none
    else some (name, parseNum name, after)

/-- The text of group `num` of a match, when the group exists (Go:
`2*num+1 < len(match) && match[2*num] >= 0`). -/
def Match.group (m : Match) (num : Nat) : Option Text :=
  if num = 0 then some m.whole else m.caps.lookup num

/-- Go's `Regexp.expand` for a pattern without named groups: `$$` is a literal
dollar sign, `$n` and `${n}` are replaced by the text of group `n` (by nothing
when there is no such group), `$name` by nothing, and a `$` that starts no name
stays.  The counter bounds the number of `$` handled and is the length of the
template. -/
def expand (letterOrDigit : Char → Bool) (m : Match) : Nat → Text → Text
  | 0, template => template
  | n + 1, template =>
    match cutDollar template with
    | none => template
    | some (before, after) =>
      before ++
        (match after with
         | '$' :: t => '$' :: expand letterOrDigit m n t
         | _ =>
           match extract letterOrDigit after with
           | none => '$' :: expand letterOrDigit m n after
           | some (_, num, rest) =>
             (match num with
              | some i => (m.group i).getD []
              | none => []) ++ expand letterOrDigit m n rest)

/-- Go's `Regexp.replaceAll`: `pending` is the text between the end of the
previous match and the position where the search resumes, `atStart` tells that
the search position is 0.  A match is replaced unless it is empty and directly
follows the previous match; after an empty match at the search position the
search moves on by one character. -/
def replaceAllLoop (re : Regex) (repl : Match → Text) : Nat → Bool → Text → Text → Text
  | 0, _, pending, s => pending ++ s
  | n + 1, atStart, pending, s =>
    match re.find s with
    | none => pending ++ s
    | some m =>
      let out := pending ++ m.pre ++
        (if m.whole ≠ [] ∨ pending ≠ [] ∨ m.pre ≠ [] ∨ atStart = true then repl m else [])
      if m.whole = [] ∧ m.pre = [] then
        match s with
        | [] => out
        | c :: t => out ++ replaceAllLoop re repl n false [c] t
      else out ++ replaceAllLoop re repl n false [] m.rest

/-- Go's `Regexp.ReplaceAllString`: every match of `re` in `src`, found from
left to right, is replaced by the expansion of the template `repl`. -/
def ReplaceAllString (letterOrDigit : Char → Bool) (re : Regex) (src repl : Text) : Text :=
  replaceAllLoop re (fun m => expand letterOrDigit m repl.length repl)
    (src.length + 1) true [] src

/-! ## `updateReadme` -/

/-- The pattern compiled by `updateReadme`:
`(?s)<!--( ?)README-STATS:START( ?)-->(.*?)<!--( ?)README-STATS:END( ?)-->`. -/
def re : Regex :=
  Regex.seq
    [ Regex.str "<!--".toList, .group 1 (.opt (.lit ' ')),
      Regex.str "README-STATS:START".toList, .group 2 (.opt (.lit ' ')),
      Regex.str "-->".toList,
      .group 3 (.lazyStar .any),
      Regex.str "<!--".toList, .group 4 (.opt (.lit ' ')),
      Regex.str "README-STATS:END".toList, .group 5 (.opt (.lit ' ')),
      Regex.str "-->".toList ]

/-- The replacement built with `fmt.Sprintf` in `updateReadme`. -/
def replacement (newContent : Text) : Text :=
  "<!-- README-STATS:START -->\n".toList ++ newContent ++ "<!-- README-STATS:END -->".toList

/-- What the program does to its surroundings, in order. -/
inductive Event where
  | getwd
  | newClient (token : String)
  | fetchRepositories
  | fetchCommits
  | fetchLanguages
  | dailyStats
  | weeklyStats
  | languageStats
  | readFile (path : String)
  | writeFile (path : String) (data : Text)
  deriving DecidableEq, Repr

/-- A failing `os.WriteFile`: the error it returns and what a later read of the
file gives (the write may have stopped anywhere). -/
structure WriteFault where
  err : String
  left : Except String Text

/-- The surroundings of the program: the files (`os.ReadFile` gives the content
or an error), which writes fail and how, and the trace of the events so far. -/
structure World where
  files : String → Except String Text
  writeFault : String → Text → Option WriteFault
  trace : List Event

/-- Records an event. -/
def World.log (w : World) (e : Event) : World :=
  { w with trace := w.trace ++ [e] }

/-- Sets what a read of `path` gives. -/
def World.setFile (w : World) (path : String) (r : Except String Text) : World :=
  { w with files := fun p => if p = path then r else w.files p }

/-- The errors returned by `updateReadme`. -/
inductive UpdateError where
  | read (cause : String)
  | noBlock
  | write (cause : String)
  deriving DecidableEq, Repr

/-- The message of an error of `updateReadme`. -/
def UpdateError.message : UpdateError → String
  | .read cause => "failed to read README file: " ++ cause
  | .noBlock => "could not find README-STATS block"
  | .write cause => cause

/-- The function `updateReadme` of `cmd/root.go`: reads the file, looks for the
block, replaces every block and writes the file back. -/
def updateReadme (letterOrDigit : Char → Bool) (w : World) (filepath : String)
    (newContent : Text) : Except UpdateError Unit × World :=
  let w₁ := w.log (.readFile filepath)
  match w.files filepath with
  | .error cause => (.error (.read cause), w₁)
  | .ok data =>
    match re.find data with
    | none => (.error .noBlock, w₁)
    | some _ =>
      let updatedContent := ReplaceAllString letterOrDigit re data (replacement newContent)
      let w₂ := w₁.log (.writeFile filepath updatedContent)
      match w.writeFault filepath updatedContent with
      | some fault => (.error (.write fault.err), w₂.setFile filepath fault.left)
      | none => (.ok (), w₂.setFile filepath (.ok updatedContent))

/-! ## The root command -/

/-- The configuration returned by `config.LoadConfig`, as far as the root
command reads it. -/
structure Config where
  githubToken : String
  timeZone : String
  deriving DecidableEq, Repr

/-- The errors returned by the root command. -/
inductive RunError where
  | tokenMissing
  | getwd (cause : String)
  | repositories (cause : String)
  | commits (cause : String)
  | languages (cause : String)
  | dailyStats (cause : String)
  | weeklyStats (cause : String)
  | languageStats (cause : String)
  | updateReadme (cause : UpdateError)
  deriving DecidableEq, Repr

/-- The message of an error of the root command. -/
def RunError.message : RunError → String
  | .tokenMissing => "GITHUB_TOKEN not provided"
  | .getwd cause => "failed to get current working directory: " ++ cause
  | .repositories cause => "failed to get repositories: " ++ cause
  | .commits cause => "failed to get commits: " ++ cause
  | .languages cause => "failed to get languages: " ++ cause
  | .dailyStats cause => "failed to get daily commit stats: " ++ cause
  | .weeklyStats cause => "failed to get weekly commit stats: " ++ cause
  | .languageStats cause => "failed to get language stats: " ++ cause
  | .updateReadme cause => "failed to update README: " ++ cause.message

/-- What the root command gets from outside `cmd/root.go`: the loaded
configuration, the `--include` flag, the working directory, `filepath.Join`,
the functions of the packages `internal/github` and `internal/stats` (the
client is fixed by the token it was created with), and the Unicode tables
behind `regexp`.  `R`, `C` and `L` are the types of the fetched repositories,
commits and language totals. -/
structure Env (R C L : Type) where
  cfg : Config
  includes : List Text
  cwd : Except String String
  joinPath : String → String → String
  fetchRepositories : String → Except String R
  fetchCommitsFromRepositories : String → R → Except String C
  fetchLanguagesFromRepositories : String → R → Except String L
  getDailyCommitData : Config → C → Except String Text
  getWeeklyCommitData : Config → C → Except String Text
  getLanguageData : Config → L → Except String Text
  letterOrDigit : Char → Bool

/-- The item `DAY_STATS` of the include list. -/
def dayStatsItem : Text := "DAY_STATS".toList

/-- The item `WEEK_STATS` of the include list. -/
def weekStatsItem : Text := "WEEK_STATS".toList

/-- The item `LANGUAGE_STATS` of the include list. -/
def languageStatsItem : Text := "LANGUAGE_STATS".toList

/-- The closure `codeBlock` of the root command. -/
def codeBlock (content : Text) : Text :=
  "\n```\n".toList ++ content ++ "\n```\n".toList

/-- The text written for an item of the include list that is not recognised:
`fmt.Sprintf("\n\nUnknown item: %s\n", item)`. -/
def unknownItem (item : Text) : Text :=
  "\n\nUnknown item: ".toList ++ item ++ "\n".toList

/-- The loop of the root command over the include list; `content` is what the
string builder holds. -/
def renderItems {R C L : Type} (env : Env R C L) (commits : C) (languages : L) :
    List Text → Text → World → Except RunError Text × World
  | [], content, w => (.ok content, w)
  | item :: rest, content, w =>
    if item = dayStatsItem then
      match env.getDailyCommitData env.cfg commits with
      | .error cause => (.error (.dailyStats cause), w.log .dailyStats)
      | .ok dailyStats =>
        renderItems env commits languages rest (content ++ codeBlock dailyStats)
          (w.log .dailyStats)
    else if item = weekStatsItem then
      match env.getWeeklyCommitData env.cfg commits with
      | .error cause => (.error (.weeklyStats cause), w.log .weeklyStats)
      | .ok weeklyStats =>
        renderItems env commits languages rest (content ++ codeBlock weeklyStats)
          (w.log .weeklyStats)
    else if item = languageStatsItem then
      match env.getLanguageData env.cfg languages with
      | .error cause => (.error (.languageStats cause), w.log .languageStats)
      | .ok languageStats =>
        renderItems env commits languages rest (content ++ codeBlock languageStats)
          (w.log .languageStats)
    else renderItems env commits languages rest (content ++ unknownItem item) w

/-- The blob of the root command: the loop over the include list from an empty
builder, then one newline. -/
def buildContent {R C L : Type} (env : Env R C L) (commits : C) (languages : L)
    (w : World) : Except RunError Text × World :=
  match renderItems env commits languages env.includes [] w with
  | (.error e, w₁) => (.error e, w₁)
  | (.ok content, w₁) => (.ok (content ++ "\n".toList), w₁)

/-- The function `RunE` of the root command. -/
def runE {R C L : Type} (env : Env R C L) (w : World) : Except RunError Unit × World :=
  if env.cfg.githubToken = "" then (.error .tokenMissing, w)
  else
    let w₁ := w.log .getwd
    match env.cwd with
    | .error cause => (.error (.getwd cause), w₁)
    | .ok cwd =>
      let path := env.joinPath cwd "README.md"
      let w₂ := w₁.log (.newClient env.cfg.githubToken)
      let w₃ := w₂.log .fetchRepositories
      match env.fetchRepositories env.cfg.githubToken with
      | .error cause => (.error (.repositories cause), w₃)
      | .ok repositories =>
        let w₄ := w₃.log .fetchCommits
        match env.fetchCommitsFromRepositories env.cfg.githubToken repositories with
        | .error cause => (.error (.commits cause), w₄)
        | .ok commits =>
          let w₅ := w₄.log .fetchLanguages
          match env.fetchLanguagesFromRepositories env.cfg.githubToken repositories with
          | .error cause => (.error (.languages cause), w₅)
          | .ok languages =>
            match buildContent env commits languages w₅ with
            | (.error e, w₆) => (.error e, w₆)
            | (.ok content, w₆) =>
              match updateReadme env.letterOrDigit w₆ path content with
              | (.error e, w₇) => (.error (.updateReadme e), w₇)
              | (.ok _, w₇) => (.ok (), w₇)

/-! ## Markers and blocks, in the words of the specification -/

/-- The text `s` without the leading `p`, when `s` begins with `p`. -/
def dropPrefix : Text → Text → Option Text
  | [], s => some s
  | _ :: _, [] => none
  | c :: p, x :: s => if x = c then dropPrefix p s else none

/-- The name of the start marker. -/
def startName : Text := "README-STATS:START".toList

/-- The name of the end marker. -/
def endName : Text := "README-STATS:END".toList

/-- The opening of a marker. -/
def openText : Text := "<!--".toList

/-- The closing of a marker. -/
def closeText : Text := "-->".toList

/-- A marker: `<!--`, the text `a`, the name, the text `b`, `-->`. -/
def marker (name a b : Text) : Text :=
  openText ++ a ++ name ++ b ++ closeText

/-- An optional single space: a space or nothing. -/
def IsOptSpace (a : Text) : Prop := a = [' '] ∨ a = []

/-- A marker of the given name, each of its two spaces present or not. -/
def IsMarker (name m : Text) : Prop :=
  ∃ a b, IsOptSpace a ∧ IsOptSpace b ∧ m = marker name a b

/-- A start marker. -/
def IsStartMarker (m : Text) : Prop := IsMarker startName m

/-- An end marker. -/
def IsEndMarker (m : Text) : Prop := IsMarker endName m

/-- The text contains a start marker followed later by an end marker. -/
def HasMarkerPair (s : Text) : Prop :=
  ∃ pre sm mid em post,
    IsStartMarker sm ∧ IsEndMarker em ∧ s = pre ++ sm ++ mid ++ em ++ post

/-- The text contains a marker of the given name. -/
def ContainsMarker (name s : Text) : Prop :=
  ∃ u m v, IsMarker name m ∧ s = u ++ m ++ v

/-- Reads an optional single space: the space read (or nothing) and the text
after it. -/
def optSpace : Text → Text × Text
  | ' ' :: t => ([' '], t)
  | s => ([], s)

/-- Reads a marker of the given name at the beginning of `s`: `<!--`, an
optional single space, the name, an optional single space, `-->`.  The result
is the two optional spaces and the text after the marker. -/
def markerAt (name s : Text) : Option (Text × Text × Text) :=
  match dropPrefix openText s with
  | none => none
  | some s₁ =>
    match dropPrefix name (optSpace s₁).2 with
    | none => none
    | some s₃ =>
      match dropPrefix closeText (optSpace s₃).2 with
      | none => none
      | some s₅ => some ((optSpace s₁).1, (optSpace s₃).1, s₅)

/-- A marker block of a text: the text before it, its start marker (given by
its two optional spaces), its interior, its end marker and the text after
it. -/
structure Block where
  pre : Text
  a₁ : Text
  b₁ : Text
  interior : Text
  a₂ : Text
  b₂ : Text
  rest : Text
  deriving DecidableEq, Repr

/-- The start marker of a block. -/
def Block.startMarker (b : Block) : Text := marker startName b.a₁ b.b₁

/-- The end marker of a block. -/
def Block.endMarker (b : Block) : Text := marker endName b.a₂ b.b₂

/-- The whole block, markers included. -/
def Block.whole (b : Block) : Text :=
  b.startMarker ++ b.interior ++ b.endMarker

/-- The block as a match of the pattern: groups 1 to 5 are the optional
spaces and the interior. -/
def Block.toMatch (b : Block) : Match :=
  { pre := b.pre
    whole := b.whole
    caps := [(5, b.b₂), (4, b.a₂), (3, b.interior), (2, b.b₁), (1, b.a₁)]
    rest := b.rest }

/-- The nearest end marker in `s`: the text before it, its two optional spaces
and the text after it. -/
def nearestEnd : Text → Option (Text × Text × Text × Text)
  | [] => none
  | c :: t =>
    match markerAt endName (c :: t) with
    | some (a, b, r) => some ([], a, b, r)
    | none =>
      match nearestEnd t with
      | some (i, a, b, r) => some (c :: i, a, b, r)
      | none => none

/-- The block that begins at the very beginning of `s`: a start marker, then
everything up to the nearest following end marker. -/
def blockAt (s : Text) : Option Block :=
  match markerAt startName s with
  | none => none
  | some (a₁, b₁, s₁) =>
    match nearestEnd s₁ with
    | none => none
    | some (i, a₂, b₂, r) => some ⟨[], a₁, b₁, i, a₂, b₂, r⟩

/-- The first block of `s`, looking from left to right. -/
def firstBlock : Text → Option Block
  | [] => none
  | c :: t =>
    match blockAt (c :: t) with
    | some b => some b
    | none =>
      match firstBlock t with
      | some b => some { b with pre := c :: b.pre }
      | none => none

/-- The start marker as `updateReadme` writes it. -/
def canonStart : Text := marker startName [' '] [' ']

/-- The end marker as `updateReadme` writes it. -/
def canonEnd : Text := marker endName [' '] [' ']

/-- The text in which every block of `s`, found from left to right, is replaced
by the canonical start marker, a newline, the blob and the canonical end
marker; the text outside the blocks is kept.  The counter bounds the number of
blocks. -/
def spliceBlocks (blob : Text) : Nat → Text → Text
  | 0, s => s
  | n + 1, s =>
    match firstBlock s with
    | none => s
    | some b =>
      b.pre ++ (canonStart ++ '\n' :: blob ++ canonEnd) ++ spliceBlocks blob n b.rest

/-- The text with every block replaced. -/
def splice (blob s : Text) : Text := spliceBlocks blob s.length s

/-! ## The blob, in the words of the specification -/

/-- The piece of the blob for one item of the include list, given the three
rendered statistics: the statistic between two code fences for a recognised
item, the placeholder otherwise. -/
def expectedPiece (daily weekly language item : Text) : Text :=
  if item = dayStatsItem then "\n```\n".toList ++ daily ++ "\n```\n".toList
  else if item = weekStatsItem then "\n```\n".toList ++ weekly ++ "\n```\n".toList
  else if item = languageStatsItem then "\n```\n".toList ++ language ++ "\n```\n".toList
  else "\n\nUnknown item: ".toList ++ item ++ "\n".toList

/-- The blob for an include list: the pieces in the order of the list, then one
newline. -/
def expectedBlob (daily weekly language : Text) (includes : List Text) : Text :=
  (includes.map (expectedPiece daily weekly language)).flatten ++ "\n".toList

/-- A statistic requested by one of the items fails. -/
def StatisticFails {R C L : Type} (env : Env R C L) (commits : C) (languages : L)
    (items : List Text) : Prop :=
  (dayStatsItem ∈ items ∧ ∃ cause, env.getDailyCommitData env.cfg commits = .error cause) ∨
  (weekStatsItem ∈ items ∧ ∃ cause, env.getWeeklyCommitData env.cfg commits = .error cause) ∨
  (languageStatsItem ∈ items ∧ ∃ cause, env.getLanguageData env.cfg languages = .error cause)

/-- The result of the statistic function that an item of the include list
requests; an item that is not recognised requests none. -/
def itemStatistic {R C L : Type} (env : Env R C L) (commits : C) (languages : L)
    (item : Text) : Option (Except String Text) :=
  if item = dayStatsItem then some (env.getDailyCommitData env.cfg commits)
  else if item = weekStatsItem then some (env.getWeeklyCommitData env.cfg commits)
  else if item = languageStatsItem then some (env.getLanguageData env.cfg languages)
  else none

/-- The error of the root command when the statistic requested by a recognised
item fails with the given cause. -/
def itemError (item : Text) (cause : String) : RunError :=
  if item = dayStatsItem then .dailyStats cause
  else if item = weekStatsItem then .weeklyStats cause
  else .languageStats cause

/-- The call that an item of the include list leads to; none for an item that
is not recognised. -/
def itemEvent (item : Text) : Option Event :=
  if item = dayStatsItem then some .dailyStats
  else if item = weekStatsItem then some .weeklyStats
  else if item = languageStatsItem then some .languageStats
  else none

/-- An event is a call of one of the three statistic functions. -/
def Event.IsStats (ev : Event) : Prop :=
  ev = .dailyStats ∨ ev = .weeklyStats ∨ ev = .languageStats

/-! ## Sample surroundings -/

/-- ASCII letters and digits, as the table behind template names. -/
def asciiLetterOrDigit (c : Char) : Bool := c.isAlphanum

/-- A world with a single file, in which no write fails. -/
def oneFile (path : String) (content : Text) : World :=
  { files := fun p => if p = path then .ok content else .error "no such file"
    writeFault := fun _ _ => none
    trace := [] }

/-- A world with a single file in which every write fails with the given error
and leaves the given text in the file. -/
def faultyFile (path : String) (content : Text) (err : String) (left : Text) : World :=
  { files := fun p => if p = path then .ok content else .error "no such file"
    writeFault := fun _ _ => some ⟨err, .ok left⟩
    trace := [] }

/-- An environment in which every fetch succeeds and the statistics are the
given results. -/
def sampleEnv (token : String) (includes : List Text) (daily : Except String Text) :
    Env Unit Unit Unit :=
  { cfg := ⟨token, "Nowhere/Land"⟩
    includes := includes
    cwd := .ok "/repo"
    joinPath := fun dir file => dir ++ "/" ++ file
    fetchRepositories := fun _ => .ok ()
    fetchCommitsFromRepositories := fun _ _ => .ok ()
    fetchLanguagesFromRepositories := fun _ _ => .ok ()
    getDailyCommitData := fun _ _ => daily
    getWeeklyCommitData := fun _ _ => .ok "week".toList
    getLanguageData := fun _ _ => .ok "Go 100.00%".toList
    letterOrDigit := asciiLetterOrDigit }


/-! ## Reading a prefix -/

theorem dropPrefix_eq_some {p s r : Text} : dropPrefix p s = some r ↔ s = p ++ r := by
  induction p generalizing s with
  | nil => simp [dropPrefix, eq_comm]
  | cons c p ih =>
    cases s with
    | nil => simp [dropPrefix]
    | cons x s =>
      by_cases h : x = c
      · simp [dropPrefix, h, ih]
      · simp [dropPrefix, h]

theorem dropPrefix_append_self (p r : Text) : dropPrefix p (p ++ r) = some r :=
  dropPrefix_eq_some.2 rfl

theorem dropPrefix_cons_ne {c x : Char} (p s : Text) (h : x ≠ c) :
    dropPrefix (c :: p) (x :: s) = none := by
  simp [dropPrefix, h]

/-! ## The matcher on the constructs of the pattern -/

theorem run_str {α : Type} (p s : Text) (k : Cont α) :
    (Regex.str p).run s k =
      match dropPrefix p s with
      | some r => k p [] r
      | none => none := by
  induction p generalizing s k with
  | nil => simp [Regex.str, Regex.run, dropPrefix]
  | cons c p ih =>
    cases s with
    | nil => simp [Regex.str, Regex.run, dropPrefix]
    | cons x s =>
      by_cases h : x = c
      · subst h
        simp only [Regex.str, Regex.run, dropPrefix, if_true, ih]
        cases dropPrefix p s <;> simp
      · simp [Regex.str, Regex.run, dropPrefix, h]

theorem run_optSpace {α : Type} (i : Nat) (s : Text) (k : Cont α) :
    (Regex.group i (.opt (.lit ' '))).run s k =
      ((match s with
        | ' ' :: t => k [' '] [(i, [' '])] t
        | _ => none).orElse fun _ => k [] [(i, [])] s) := by
  rcases s with _ | ⟨x, t⟩
  · simp [Regex.run]
  · by_cases h : x = ' '
    · subst h; simp [Regex.run]
    · simp [Regex.run, h]

theorem run_cat {α : Type} (r₁ r₂ : Regex) (s : Text) (k : Cont α) :
    (Regex.cat r₁ r₂).run s k =
      r₁.run s (fun a c₁ s₁ => r₂.run s₁ (fun b c₂ s₂ => k (a ++ b) (c₂ ++ c₁) s₂)) := by
  simp [Regex.run]

theorem optSpace_cons_ne {x : Char} (t : Text) (h : x ≠ ' ') : optSpace (x :: t) = ([], x :: t) := by
  unfold optSpace
  split
  · rename_i heq; simp at heq; exact absurd heq.1 h
  · rfl

theorem optSpace_space (t : Text) : optSpace (' ' :: t) = ([' '], t) := rfl

theorem optSpace_nil : optSpace [] = ([], []) := rfl

/-- An optional space followed by a literal that does not begin with a space:
the backtracking matcher reads the space when there is one. -/
theorem run_optSpace_str {α : Type} (i : Nat) (c0 : Char) (p s : Text) (hc : c0 ≠ ' ')
    (k : Text → Caps → Text → Text → Caps → Text → Option α) :
    (Regex.group i (.opt (.lit ' '))).run s
        (fun a c s₁ => (Regex.str (c0 :: p)).run s₁ (k a c s₁)) =
      match dropPrefix (c0 :: p) (optSpace s).2 with
      | none => none
      | some r => k (optSpace s).1 [(i, (optSpace s).1)] (optSpace s).2 (c0 :: p) [] r := by
  rw [run_optSpace]
  rcases s with _ | ⟨x, t⟩
  · simp [run_str, dropPrefix, optSpace_nil]
  · by_cases h : x = ' '
    · subst h
      simp only [run_str, optSpace_space, dropPrefix_cons_ne p t (Ne.symm hc)]
      cases dropPrefix (c0 :: p) t <;> simp
    · simp only [run_str, optSpace_cons_ne t h]
      cases dropPrefix (c0 :: p) (x :: t) <;> simp [h]

theorem closeText_eq : closeText = '-' :: ['-', '>'] := rfl

theorem startName_eq : startName = 'R' :: "EADME-STATS:START".toList := rfl

theorem endName_eq : endName = 'R' :: "EADME-STATS:END".toList := rfl

/-- The matcher on the pattern of a marker followed by `tail` reads the marker
as `markerAt` does and goes on with `tail`. -/
theorem run_marker {α : Type} (i j : Nat) (c0 : Char) (p : Text) (hc : c0 ≠ ' ')
    (tail : List Regex) (s : Text) (k : Cont α) :
    (Regex.seq (Regex.str openText :: .group i (.opt (.lit ' ')) :: Regex.str (c0 :: p) ::
        .group j (.opt (.lit ' ')) :: Regex.str closeText :: tail)).run s k =
      (markerAt (c0 :: p) s).bind fun y =>
        (Regex.seq tail).run y.2.2
          (fun x c r₁ => k (marker (c0 :: p) y.1 y.2.1 ++ x) (c ++ [(j, y.2.1), (i, y.1)]) r₁) := by
  have hd : ('-' : Char) ≠ ' ' := by decide
  simp only [Regex.seq, run_cat, closeText_eq]
  rw [run_str]
  unfold markerAt
  cases h₁ : dropPrefix openText s with
  | none => rfl
  | some s₁ =>
    simp only []
    rw [run_optSpace_str i c0 p s₁ hc]
    cases h₂ : dropPrefix (c0 :: p) (optSpace s₁).2 with
    | none => rfl
    | some s₃ =>
      simp only []
      rw [run_optSpace_str j '-' ['-', '>'] s₃ hd]
      simp only [closeText_eq]
      cases h₃ : dropPrefix ('-' :: ['-', '>']) (optSpace s₃).2 with
      | none => rfl
      | some s₅ =>
        simp only [marker, closeText_eq, List.append_assoc, List.nil_append, List.append_nil,
          List.singleton_append, List.cons_append, Option.some_bind]

theorem seq_cons (r : Regex) (rs : List Regex) : Regex.seq (r :: rs) = .cat r (Regex.seq rs) := rfl

theorem run_seq_nil {α : Type} (s : Text) (k : Cont α) : (Regex.seq []).run s k = k [] [] s := by
  simp [Regex.seq, Regex.run]

theorem run_group {α : Type} (i : Nat) (r : Regex) (s : Text) (k : Cont α) :
    (Regex.group i r).run s k = r.run s (fun a c s₁ => k a ((i, a) :: c) s₁) := by
  simp [Regex.run]

theorem run_lazyStar {α : Type} (r : Regex) (s : Text) (k : Cont α) :
    (Regex.lazyStar r).run s k = lazyLoop (fun s₁ k₁ => r.run s₁ k₁) k s.length [] [] s := by
  simp [Regex.run]

theorem run_any_cons {α : Type} (x : Char) (t : Text) (k : Cont α) :
    Regex.any.run (x :: t) k = k [x] [] t := by
  simp [Regex.run]

theorem run_any_nil {α : Type} (k : Cont α) : Regex.any.run [] k = none := by
  simp [Regex.run]

theorem markerAt_nil (name : Text) : markerAt name [] = none := rfl

/-- The loop of `.*?` in front of the end marker stops at the nearest end
marker. -/
theorem lazyLoop_nearestEnd {β : Type} (g : Text → Caps → Text × Text × Text → β)
    (n : Nat) (s : Text) (hn : s.length ≤ n) (acc : Text) (c : Caps) :
    lazyLoop (fun s₁ k₁ => Regex.any.run s₁ k₁)
        (fun a c₁ t => (markerAt endName t).bind fun y => some (g a c₁ y)) n acc c s =
      (nearestEnd s).bind fun z => some (g (acc ++ z.1) c z.2) := by
  induction n generalizing s acc with
  | zero =>
    have hs : s = [] := List.length_eq_zero.1 (Nat.le_zero.1 hn)
    subst hs
    simp [lazyLoop, markerAt_nil, nearestEnd]
  | succ n ih =>
    rcases s with _ | ⟨x, t⟩
    · simp [lazyLoop, markerAt_nil, nearestEnd, run_any_nil]
    · have ht : t.length ≤ n := by simpa using hn
      rw [lazyLoop, nearestEnd]
      cases hm : markerAt endName (x :: t) with
      | some y =>
        obtain ⟨a, b, r⟩ := y
        simp
      | none =>
        simp only [Option.none_bind, Option.none_orElse, run_any_cons, List.nil_append]
        rw [ih t ht]
        cases nearestEnd t with
        | none => rfl
        | some y =>
          obtain ⟨i, a, b, r⟩ := y
          simp

/-- The pattern at a fixed start position finds the block that `blockAt`
describes. -/
theorem matchAt_re (s : Text) :
    re.matchAt s = (blockAt s).map fun b => (b.whole, b.toMatch.caps, b.rest) := by
  have hR : ('R' : Char) ≠ ' ' := by decide
  have e₁ : "README-STATS:START".toList = 'R' :: "EADME-STATS:START".toList := rfl
  have e₂ : "README-STATS:END".toList = 'R' :: "EADME-STATS:END".toList := rfl
  unfold Regex.matchAt re blockAt
  rw [show "<!--".toList = openText from rfl, show "-->".toList = closeText from rfl]
  rw [e₁, e₂, run_marker 1 2 'R' _ hR, ← startName_eq]
  cases hs : markerAt startName s with
  | none => rfl
  | some y =>
    obtain ⟨a₁, b₁, s₁⟩ := y
    simp only [Option.some_bind]
    rw [seq_cons, run_cat, run_group, run_lazyStar]
    simp only [run_marker 4 5 'R' _ hR, run_seq_nil]
    simp only [← endName_eq]
    simp only [lazyLoop_nearestEnd _ s₁.length s₁ (Nat.le_refl _)]
    cases nearestEnd s₁ with
    | none => rfl
    | some z =>
      obtain ⟨i, a₂, b₂, r⟩ := z
      simp [Block.whole, Block.toMatch, Block.startMarker, Block.endMarker]

/-- The leftmost match of the pattern is the first block. -/
theorem find_re (s : Text) : re.find s = (firstBlock s).map Block.toMatch := by
  induction s with
  | nil => simp [Regex.find, matchAt_re, blockAt, markerAt_nil, firstBlock]
  | cons x t ih =>
    rw [Regex.find, firstBlock, matchAt_re, ih]
    cases hb : blockAt (x :: t) with
    | some b =>
      have hp : b.pre = [] := by
        unfold blockAt at hb
        cases hm : markerAt startName (x :: t) with
        | none => simp [hm] at hb
        | some y =>
          obtain ⟨a₁, b₁, s₁⟩ := y
          cases hn : nearestEnd s₁ with
          | none => simp [hm, hn] at hb
          | some z =>
            obtain ⟨i, a₂, b₂, r⟩ := z
            simp [hm, hn] at hb
            rw [← hb]
      simp [Block.toMatch, hp]
    | none =>
      cases firstBlock t with
      | none => simp
      | some b => simp [Block.toMatch, Block.whole, Block.startMarker, Block.endMarker]

/-! ## Markers and blocks -/

theorem optSpace_fst (s : Text) : IsOptSpace (optSpace s).1 := by
  rcases s with _ | ⟨x, t⟩
  · exact Or.inr rfl
  · by_cases h : x = ' '
    · subst h; exact Or.inl rfl
    · rw [optSpace_cons_ne t h]; exact Or.inr rfl

theorem optSpace_append (s : Text) : (optSpace s).1 ++ (optSpace s).2 = s := by
  rcases s with _ | ⟨x, t⟩
  · rfl
  · by_cases h : x = ' '
    · subst h; rfl
    · rw [optSpace_cons_ne t h]; rfl

theorem optSpace_of_isOptSpace {a : Text} (ha : IsOptSpace a) {c : Char} (hc : c ≠ ' ')
    (t : Text) : optSpace (a ++ c :: t) = (a, c :: t) := by
  rcases ha with rfl | rfl
  · rfl
  · exact optSpace_cons_ne t hc

/-- What `markerAt` reads is a marker at the beginning of the text. -/
theorem markerAt_some {name s a b r : Text} (h : markerAt name s = some (a, b, r)) :
    IsOptSpace a ∧ IsOptSpace b ∧ s = marker name a b ++ r := by
  unfold markerAt at h
  cases h₁ : dropPrefix openText s with
  | none => simp [h₁] at h
  | some s₁ =>
    cases h₂ : dropPrefix name (optSpace s₁).2 with
    | none => simp [h₁, h₂] at h
    | some s₃ =>
      cases h₃ : dropPrefix closeText (optSpace s₃).2 with
      | none => simp [h₁, h₂, h₃] at h
      | some s₅ =>
        simp only [h₁, h₂, h₃, Option.some.injEq, Prod.mk.injEq] at h
        obtain ⟨ha, hb, hr⟩ := h
        subst ha hb hr
        refine ⟨optSpace_fst _, optSpace_fst _, ?_⟩
        have e₁ := dropPrefix_eq_some.1 h₁
        have e₂ := dropPrefix_eq_some.1 h₂
        have e₃ := dropPrefix_eq_some.1 h₃
        have f₁ := optSpace_append s₁
        have f₃ := optSpace_append s₃
        have e : s = openText ++ ((optSpace s₁).1 ++ (name ++ ((optSpace s₃).1 ++
            (closeText ++ s₅)))) := by
          rw [← e₃, f₃, ← e₂, f₁]; exact e₁
        simpa [marker] using e

/-- A marker at the beginning of a text is read by `markerAt`. -/
theorem markerAt_marker {c0 : Char} (p : Text) (hc : c0 ≠ ' ') {a b : Text}
    (ha : IsOptSpace a) (hb : IsOptSpace b) (r : Text) :
    markerAt (c0 :: p) (marker (c0 :: p) a b ++ r) = some (a, b, r) := by
  have hd : ('-' : Char) ≠ ' ' := by decide
  have e₁ : dropPrefix openText (marker (c0 :: p) a b ++ r) =
      some (a ++ c0 :: (p ++ b ++ closeText ++ r)) := by
    apply dropPrefix_eq_some.2; simp [marker]
  have e₂ : dropPrefix (c0 :: p) (c0 :: (p ++ b ++ closeText ++ r)) =
      some (b ++ '-' :: (['-', '>'] ++ r)) := by
    apply dropPrefix_eq_some.2; simp [closeText_eq]
  have e₃ : dropPrefix closeText ('-' :: (['-', '>'] ++ r)) = some r := by
    apply dropPrefix_eq_some.2; simp [closeText_eq]
  unfold markerAt
  simp only [e₁, optSpace_of_isOptSpace ha hc, e₂, optSpace_of_isOptSpace hb hd, e₃]

theorem marker_ne_nil (name a b : Text) : marker name a b ≠ [] := by
  simp [marker, openText]

theorem nearestEnd_some {s i a b r : Text} (h : nearestEnd s = some (i, a, b, r)) :
    IsOptSpace a ∧ IsOptSpace b ∧ s = i ++ marker endName a b ++ r := by
  induction s generalizing i with
  | nil => simp [nearestEnd] at h
  | cons c t ih =>
    rw [nearestEnd] at h
    cases hm : markerAt endName (c :: t) with
    | some y =>
      obtain ⟨a', b', r'⟩ := y
      simp only [hm, Option.some.injEq, Prod.mk.injEq] at h
      obtain ⟨rfl, rfl, rfl, rfl⟩ := h
      simpa using markerAt_some hm
    | none =>
      cases hn : nearestEnd t with
      | none => simp [hm, hn] at h
      | some z =>
        obtain ⟨i', a', b', r'⟩ := z
        simp only [hm, hn, Option.some.injEq, Prod.mk.injEq] at h
        obtain ⟨rfl, rfl, rfl, rfl⟩ := h
        obtain ⟨h₁, h₂, h₃⟩ := ih hn
        exact ⟨h₁, h₂, by simp [h₃]⟩

theorem blockAt_some {s : Text} {b : Block} (h : blockAt s = some b) :
    b.pre = [] ∧ markerAt startName s = some (b.a₁, b.b₁, b.interior ++ b.endMarker ++ b.rest) ∧
      nearestEnd (b.interior ++ b.endMarker ++ b.rest) = some (b.interior, b.a₂, b.b₂, b.rest) := by
  unfold blockAt at h
  cases hm : markerAt startName s with
  | none => simp [hm] at h
  | some y =>
    obtain ⟨a₁, b₁, s₁⟩ := y
    cases hn : nearestEnd s₁ with
    | none => simp [hm, hn] at h
    | some z =>
      obtain ⟨i, a₂, b₂, r⟩ := z
      simp only [hm, hn, Option.some.injEq] at h
      subst h
      have e := (nearestEnd_some hn).2.2
      simp only [Block.endMarker]
      rw [← e]
      exact ⟨trivial, rfl, hn⟩

/-- A block found at the beginning of a text: the text is the block followed
by the rest. -/
theorem blockAt_sound {s : Text} {b : Block} (h : blockAt s = some b) :
    b.pre = [] ∧ IsOptSpace b.a₁ ∧ IsOptSpace b.b₁ ∧ IsOptSpace b.a₂ ∧ IsOptSpace b.b₂ ∧
      s = b.whole ++ b.rest := by
  obtain ⟨hp, hm, hn⟩ := blockAt_some h
  obtain ⟨h₁, h₂, h₃⟩ := markerAt_some hm
  obtain ⟨h₄, h₅, _⟩ := nearestEnd_some hn
  refine ⟨hp, h₁, h₂, h₄, h₅, ?_⟩
  rw [h₃]
  simp [Block.whole, Block.startMarker]

/-- The first block of a text: the text is what precedes the block, the block
and the rest. -/
theorem firstBlock_sound {s : Text} {b : Block} (h : firstBlock s = some b) :
    IsOptSpace b.a₁ ∧ IsOptSpace b.b₁ ∧ IsOptSpace b.a₂ ∧ IsOptSpace b.b₂ ∧
      s = b.pre ++ b.whole ++ b.rest := by
  induction s generalizing b with
  | nil => simp [firstBlock] at h
  | cons c t ih =>
    rw [firstBlock] at h
    cases hb : blockAt (c :: t) with
    | some b₀ =>
      simp only [hb, Option.some.injEq] at h
      subst h
      obtain ⟨hp, h₁, h₂, h₃, h₄, h₅⟩ := blockAt_sound hb
      exact ⟨h₁, h₂, h₃, h₄, by simp [hp, h₅]⟩
    | none =>
      cases hf : firstBlock t with
      | none => simp [hb, hf] at h
      | some b₁ =>
        simp only [hb, hf, Option.some.injEq] at h
        subst h
        obtain ⟨h₁, h₂, h₃, h₄, h₅⟩ := ih hf
        refine ⟨h₁, h₂, h₃, h₄, ?_⟩
        have : ({ b₁ with pre := c :: b₁.pre } : Block).whole = b₁.whole := rfl
        simp only [this, List.cons_append, List.cons.injEq, true_and]
        exact h₅

theorem block_whole_ne_nil (b : Block) : b.whole ≠ [] := by
  simp [Block.whole, Block.startMarker, marker, openText]

theorem firstBlock_rest_lt {s : Text} {b : Block} (h : firstBlock s = some b) :
    b.rest.length < s.length := by
  have e := (firstBlock_sound h).2.2.2.2
  have hw : 0 < b.whole.length := List.length_pos.2 (block_whole_ne_nil b)
  rw [e]
  simp only [List.length_append]
  omega

theorem hasMarkerPair_of_firstBlock {s : Text} {b : Block} (h : firstBlock s = some b) :
    HasMarkerPair s := by
  obtain ⟨h₁, h₂, h₃, h₄, h₅⟩ := firstBlock_sound h
  refine ⟨b.pre, b.startMarker, b.interior, b.endMarker, b.rest,
    ⟨b.a₁, b.b₁, h₁, h₂, rfl⟩, ⟨b.a₂, b.b₂, h₃, h₄, rfl⟩, ?_⟩
  rw [h₅]
  simp [Block.whole]

theorem nearestEnd_of_markerAt {s a b r : Text} (h : markerAt endName s = some (a, b, r)) :
    nearestEnd s = some ([], a, b, r) := by
  rcases s with _ | ⟨c, t⟩
  · simp [markerAt_nil] at h
  · simp [nearestEnd, h]

theorem nearestEnd_isSome {a b : Text} (ha : IsOptSpace a) (hb : IsOptSpace b)
    (mid post : Text) : (nearestEnd (mid ++ marker endName a b ++ post)).isSome = true := by
  have hR : ('R' : Char) ≠ ' ' := by decide
  induction mid with
  | nil =>
    have := markerAt_marker "EADME-STATS:END".toList hR ha hb post
    rw [← endName_eq] at this
    simp [nearestEnd_of_markerAt this]
  | cons c t ih =>
    simp only [List.cons_append]
    rw [nearestEnd]
    cases hm : markerAt endName (c :: (t ++ marker endName a b ++ post)) with
    | some y => simp
    | none =>
      simp only [List.append_assoc] at ih ⊢
      cases hn : nearestEnd (t ++ (marker endName a b ++ post)) with
      | none => simp [hn] at ih
      | some z => simp

theorem blockAt_isSome {a₁ b₁ a₂ b₂ : Text} (h₁ : IsOptSpace a₁) (h₂ : IsOptSpace b₁)
    (h₃ : IsOptSpace a₂) (h₄ : IsOptSpace b₂) (mid post : Text) :
    (blockAt (marker startName a₁ b₁ ++ mid ++ marker endName a₂ b₂ ++ post)).isSome = true := by
  have hR : ('R' : Char) ≠ ' ' := by decide
  have hm := markerAt_marker "EADME-STATS:START".toList hR h₁ h₂
    (mid ++ marker endName a₂ b₂ ++ post)
  rw [← startName_eq] at hm
  have hn := nearestEnd_isSome h₃ h₄ mid post
  unfold blockAt
  simp only [List.append_assoc] at hm hn ⊢
  rw [hm]
  cases hz : nearestEnd (mid ++ (marker endName a₂ b₂ ++ post)) with
  | none => simp [hz] at hn
  | some z =>
    obtain ⟨i, a, b, r⟩ := z
    simp [hz]

theorem firstBlock_isSome_of_blockAt (pre : Text) {s : Text}
    (h : (blockAt s).isSome = true) : (firstBlock (pre ++ s)).isSome = true := by
  induction pre with
  | nil =>
    rcases s with _ | ⟨c, t⟩
    · simp [blockAt, markerAt_nil] at h
    · simp only [List.nil_append]
      rw [firstBlock]
      cases hb : blockAt (c :: t) with
      | none => simp [hb] at h
      | some b => simp
  | cons c t ih =>
    simp only [List.cons_append]
    rw [firstBlock]
    cases hb : blockAt (c :: (t ++ s)) with
    | some b => simp
    | none =>
      cases hf : firstBlock (t ++ s) with
      | none => simp [hf] at ih
      | some b => simp

/-- A text has a start marker followed by an end marker exactly when it has a
first block. -/
theorem hasMarkerPair_iff (s : Text) : HasMarkerPair s ↔ (firstBlock s).isSome = true := by
  constructor
  · rintro ⟨pre, sm, mid, em, post, ⟨a₁, b₁, h₁, h₂, rfl⟩, ⟨a₂, b₂, h₃, h₄, rfl⟩, rfl⟩
    have := firstBlock_isSome_of_blockAt pre (blockAt_isSome h₁ h₂ h₃ h₄ mid post)
    simpa [List.append_assoc] using this
  · intro h
    cases hf : firstBlock s with
    | none => simp [hf] at h
    | some b => exact hasMarkerPair_of_firstBlock hf

/-! ## Template expansion and replacement -/

theorem cutDollar_eq_none {t : Text} (h : '$' ∉ t) : cutDollar t = none := by
  induction t with
  | nil => rfl
  | cons c t ih =>
    have hc : c ≠ '$' := fun e => h (by simp [e])
    have ht : '$' ∉ t := fun e => h (by simp [e])
    simp [cutDollar, hc, ih ht]

/-- A template without `$` expands to itself. -/
theorem expand_of_no_dollar (letterOrDigit : Char → Bool) (m : Match) (n : Nat) {t : Text}
    (h : '$' ∉ t) : expand letterOrDigit m n t = t := by
  cases n with
  | zero => rfl
  | succ n => simp [expand, cutDollar_eq_none h]

theorem replacement_eq (blob : Text) :
    replacement blob = canonStart ++ '\n' :: blob ++ canonEnd := by
  simp [replacement, canonStart, canonEnd, marker, openText, closeText, startName, endName]

theorem no_dollar_replacement {blob : Text} (h : '$' ∉ blob) : '$' ∉ replacement blob := by
  simp [replacement, h]

/-- One step of the replacement loop on the pattern: the first block is
replaced and the loop goes on after it. -/
theorem replaceAllLoop_block (repl : Match → Text) (n : Nat) (atStart : Bool) {s : Text}
    {b : Block} (h : firstBlock s = some b) :
    replaceAllLoop re repl (n + 1) atStart [] s =
      b.pre ++ repl b.toMatch ++ replaceAllLoop re repl n false [] b.rest := by
  have hw : b.toMatch.whole ≠ [] := block_whole_ne_nil b
  rw [replaceAllLoop, find_re, h]
  simp [hw]
  rfl

theorem replaceAllLoop_none (repl : Match → Text) (n : Nat) (atStart : Bool) {s : Text}
    (h : firstBlock s = none) : replaceAllLoop re repl n atStart [] s = s := by
  cases n with
  | zero => simp [replaceAllLoop]
  | succ n => simp [replaceAllLoop, find_re, h]

/-- With a replacement that does not depend on the match, the replacement loop
is the splice of the blocks. -/
theorem replaceAllLoop_const (repl : Match → Text) (blob : Text)
    (hrepl : ∀ m, repl m = canonStart ++ '\n' :: blob ++ canonEnd) (n : Nat) (atStart : Bool)
    (s : Text) : replaceAllLoop re repl n atStart [] s = spliceBlocks blob n s := by
  induction n generalizing atStart s with
  | zero => simp [replaceAllLoop, spliceBlocks]
  | succ n ih =>
    cases h : firstBlock s with
    | none => simp [replaceAllLoop_none repl _ _ h, spliceBlocks, h]
    | some b => simp [replaceAllLoop_block repl n atStart h, spliceBlocks, h, hrepl, ih]

/-- The counter of `spliceBlocks` does not matter once it is at least the
length of the text. -/
theorem spliceBlocks_fuel (blob : Text) (n m : Nat) (s : Text) (hn : s.length ≤ n)
    (hm : s.length ≤ m) : spliceBlocks blob n s = spliceBlocks blob m s := by
  induction n generalizing m s with
  | zero =>
    have hs : s = [] := List.length_eq_zero.1 (Nat.le_zero.1 hn)
    subst hs
    cases m <;> simp [spliceBlocks, firstBlock]
  | succ n ih =>
    cases m with
    | zero =>
      have hs : s = [] := List.length_eq_zero.1 (Nat.le_zero.1 hm)
      subst hs
      simp [spliceBlocks, firstBlock]
    | succ m =>
      cases h : firstBlock s with
      | none => simp [spliceBlocks, h]
      | some b =>
        have hlt := firstBlock_rest_lt h
        simp only [spliceBlocks, h]
        rw [ih m b.rest (by omega) (by omega)]

/-- The unfolding of `splice` at the first block. -/
theorem splice_eq (blob s : Text) :
    splice blob s =
      match firstBlock s with
      | none => s
      | some b => b.pre ++ (canonStart ++ '\n' :: blob ++ canonEnd) ++ splice blob b.rest := by
  unfold splice
  cases h : firstBlock s with
  | none => cases s <;> simp [spliceBlocks, h]
  | some b =>
    have hlt := firstBlock_rest_lt h
    obtain ⟨n, hn⟩ : ∃ n, s.length = n + 1 := ⟨s.length - 1, by omega⟩
    rw [hn]
    simp only [spliceBlocks, h]
    rw [spliceBlocks_fuel blob n b.rest.length b.rest (by omega) (Nat.le_refl _)]

theorem replaceAllString_no_dollar (letterOrDigit : Char → Bool) (s : Text) {blob : Text}
    (h : '$' ∉ blob) : ReplaceAllString letterOrDigit re s (replacement blob) = splice blob s := by
  unfold ReplaceAllString splice
  rw [replaceAllLoop_const _ blob
    (fun m => by rw [expand_of_no_dollar _ _ _ (no_dollar_replacement h), replacement_eq])]
  exact spliceBlocks_fuel blob _ _ s (Nat.le_succ _) (Nat.le_refl _)

/-! ## `updateReadme` -/

theorem updateReadme_read_error (letterOrDigit : Char → Bool) (w : World) (path : String)
    (blob : Text) {cause : String} (h : w.files path = .error cause) :
    updateReadme letterOrDigit w path blob = (.error (.read cause), w.log (.readFile path)) := by
  simp [updateReadme, h]

theorem updateReadme_no_block (letterOrDigit : Char → Bool) (w : World) (path : String)
    (blob : Text) {content : Text} (h : w.files path = .ok content)
    (hb : firstBlock content = none) :
    updateReadme letterOrDigit w path blob = (.error .noBlock, w.log (.readFile path)) := by
  simp [updateReadme, h, find_re, hb]

theorem updateReadme_block (letterOrDigit : Char → Bool) (w : World) (path : String)
    (blob : Text) {content : Text} {b : Block} (h : w.files path = .ok content)
    (hb : firstBlock content = some b) :
    updateReadme letterOrDigit w path blob =
      match w.writeFault path (ReplaceAllString letterOrDigit re content (replacement blob)) with
      | some fault =>
        (.error (.write fault.err),
          ((w.log (.readFile path)).log (.writeFile path
            (ReplaceAllString letterOrDigit re content (replacement blob)))).setFile path fault.left)
      | none =>
        (.ok (),
          ((w.log (.readFile path)).log (.writeFile path
            (ReplaceAllString letterOrDigit re content (replacement blob)))).setFile path
            (.ok (ReplaceAllString letterOrDigit re content (replacement blob)))) := by
  simp [updateReadme, h, find_re, hb]

/-- A successful `updateReadme`: the file was read, has a first block, and the
text with the matches replaced was written. -/
theorem updateReadme_ok {letterOrDigit : Char → Bool} {w w₁ : World} {path : String}
    {blob content : Text} (h : w.files path = .ok content)
    (hrun : updateReadme letterOrDigit w path blob = (.ok (), w₁)) :
    (∃ b, firstBlock content = some b) ∧
      w₁.files path = .ok (ReplaceAllString letterOrDigit re content (replacement blob)) := by
  cases hb : firstBlock content with
  | none =>
    rw [updateReadme_no_block _ _ _ _ h hb] at hrun
    simp at hrun
  | some b =>
    refine ⟨⟨b, rfl⟩, ?_⟩
    rw [updateReadme_block _ _ _ _ h hb] at hrun
    cases hf : w.writeFault path (ReplaceAllString letterOrDigit re content (replacement blob)) with
    | some fault => simp [hf] at hrun
    | none =>
      simp only [hf, Prod.mk.injEq, true_and] at hrun
      rw [← hrun]
      simp [World.setFile]

/-! ## Markers cannot straddle -/

/-- A marker begins with `<` and has no other `<`. -/
theorem marker_shape {name : Text} (hname : name = startName ∨ name = endName) {a b : Text}
    (ha : IsOptSpace a) (hb : IsOptSpace b) :
    ∃ t, marker name a b = '<' :: t ∧ '<' ∉ t := by
  rcases hname with rfl | rfl <;> rcases ha with rfl | rfl <;> rcases hb with rfl | rfl <;>
    exact ⟨_, rfl, by decide⟩

/-- A marker at the beginning of `v ++ x`, where `v` is not empty and `x`
begins with `<`, lies within `v`. -/
theorem marker_within_of_append {m t v x r : Text} (hm : m = '<' :: t) (ht : '<' ∉ t)
    (hv : v ≠ []) (hx : x.head? = some '<') (h : m ++ r = v ++ x) : ∃ v₂, v = m ++ v₂ := by
  rcases List.append_eq_append_iff.1 h with ⟨a', h₁, _⟩ | ⟨c', h₁, h₂⟩
  · exact ⟨a', h₁⟩
  · rcases c' with _ | ⟨d, c''⟩
    · exact ⟨[], by simpa using h₁.symm⟩
    · exfalso
      rw [h₂] at hx
      simp only [List.cons_append, List.head?_cons, Option.some.injEq] at hx
      subst hx
      rcases v with _ | ⟨e, v'⟩
      · exact hv rfl
      · rw [hm] at h₁
        simp only [List.cons_append, List.cons.injEq] at h₁
        exact ht (by rw [h₁.2]; simp)

theorem markerAt_within {name : Text} (hname : name = startName ∨ name = endName)
    {v x a b r : Text} (hv : v ≠ []) (hx : x.head? = some '<')
    (h : markerAt name (v ++ x) = some (a, b, r)) : ∃ v₂, v = marker name a b ++ v₂ := by
  obtain ⟨ha, hb, e⟩ := markerAt_some h
  obtain ⟨t, hm, ht⟩ := marker_shape hname ha hb
  exact marker_within_of_append hm ht hv hx e.symm

theorem blockAt_nil : blockAt [] = none := rfl

/-- Before the first block no block begins. -/
theorem firstBlock_pre_none {s : Text} {b : Block} (h : firstBlock s = some b) (u v : Text)
    (hp : b.pre = u ++ v) (hv : v ≠ []) : blockAt (v ++ b.whole ++ b.rest) = none := by
  induction s generalizing b u with
  | nil => simp [firstBlock] at h
  | cons c t ih =>
    have hs := (firstBlock_sound h).2.2.2.2
    rw [firstBlock] at h
    cases hb : blockAt (c :: t) with
    | some b₀ =>
      simp only [hb, Option.some.injEq] at h
      subst h
      have := (blockAt_sound hb).1
      rw [this] at hp
      have : v = [] := by
        have hl := congrArg List.length hp
        simp only [List.length_nil, List.length_append] at hl
        exact List.length_eq_zero.1 (by omega)
      exact absurd this hv
    | none =>
      cases hf : firstBlock t with
      | none => simp [hb, hf] at h
      | some b₁ =>
        simp only [hb, hf, Option.some.injEq] at h
        subst h
        rcases u with _ | ⟨d, u'⟩
        · simp only [List.nil_append] at hp
          rw [← hp, ← hs]
          exact hb
        · simp only [List.cons_append, List.cons.injEq] at hp
          exact ih (b := b₁) hf u' hp.2

/-- When no block begins within `pre`, the first block of `pre ++ x` is the
block at the beginning of `x`. -/
theorem firstBlock_append_of_none {pre x : Text} {bx : Block}
    (hnone : ∀ u v, pre = u ++ v → v ≠ [] → blockAt (v ++ x) = none)
    (hx : blockAt x = some bx) : firstBlock (pre ++ x) = some { bx with pre := pre } := by
  induction pre with
  | nil =>
    have hp := (blockAt_sound hx).1
    rcases x with _ | ⟨c, t⟩
    · simp [blockAt_nil] at hx
    · simp only [List.nil_append]
      rw [firstBlock, hx]
      simp [← hp]
  | cons c t ih =>
    have h₁ : blockAt (c :: t ++ x) = none := hnone [] (c :: t) rfl (by simp)
    have h₂ := ih (fun u v e hv => hnone (c :: u) v (by simp [e]) hv)
    simp only [List.cons_append] at h₁ ⊢
    rw [firstBlock, h₁, h₂]

/-- When no end marker begins within `i`, the nearest end marker of
`i ++ marker ++ tail` is that marker. -/
theorem nearestEnd_append_of_none {i a b tail : Text} (ha : IsOptSpace a) (hb : IsOptSpace b)
    (hnone : ∀ u v, i = u ++ v → v ≠ [] → markerAt endName (v ++ marker endName a b ++ tail) = none) :
    nearestEnd (i ++ marker endName a b ++ tail) = some (i, a, b, tail) := by
  have hR : ('R' : Char) ≠ ' ' := by decide
  induction i with
  | nil =>
    have := markerAt_marker "EADME-STATS:END".toList hR ha hb tail
    rw [← endName_eq] at this
    simpa using nearestEnd_of_markerAt this
  | cons c t ih =>
    have h₁ := hnone [] (c :: t) rfl (by simp)
    have h₂ := ih (fun u v e hv => hnone (c :: u) v (by simp [e]) hv)
    simp only [List.cons_append] at h₁ ⊢
    rw [nearestEnd, h₁, h₂]

/-! ## Splicing twice -/

theorem isOptSpace_space : IsOptSpace [' '] := Or.inl rfl

theorem canonEnd_head (tail : Text) : (canonEnd ++ tail).head? = some '<' := rfl

theorem canonStart_head (tail : Text) : (canonStart ++ tail).head? = some '<' := rfl

/-- The block written by a splice is the block at its beginning, when the blob
contains no end marker. -/
theorem blockAt_written {blob : Text} (hend : ¬ ContainsMarker endName blob) (tail : Text) :
    blockAt (canonStart ++ ('\n' :: blob ++ canonEnd ++ tail)) =
      some ⟨[], [' '], [' '], '\n' :: blob, [' '], [' '], tail⟩ := by
  have hR : ('R' : Char) ≠ ' ' := by decide
  have hm := markerAt_marker "EADME-STATS:START".toList hR isOptSpace_space isOptSpace_space
    ('\n' :: blob ++ canonEnd ++ tail)
  rw [← startName_eq] at hm
  have hn : nearestEnd (('\n' :: blob) ++ marker endName [' '] [' '] ++ tail) =
      some ('\n' :: blob, [' '], [' '], tail) := by
    apply nearestEnd_append_of_none isOptSpace_space isOptSpace_space
    intro u v e hv
    cases hmk : markerAt endName (v ++ marker endName [' '] [' '] ++ tail) with
    | none => rfl
    | some y =>
      exfalso
      obtain ⟨a, b, r⟩ := y
      rw [List.append_assoc] at hmk
      obtain ⟨v₂, hv₂⟩ := markerAt_within (Or.inr rfl) hv (canonEnd_head tail) hmk
      obtain ⟨ha, hb, _⟩ := markerAt_some hmk
      obtain ⟨t, hshape, _⟩ := marker_shape (Or.inr rfl) ha hb
      rw [hv₂] at e
      rcases u with _ | ⟨d, u'⟩
      · rw [hshape] at e
        simp at e
      · simp only [List.cons_append, List.cons.injEq] at e
        exact hend ⟨u', marker endName a b, v₂, ⟨a, b, ha, hb, rfl⟩, by rw [e.2]; simp⟩
  unfold blockAt
  have hm' : markerAt startName (canonStart ++ ('\n' :: blob ++ canonEnd ++ tail)) =
      some ([' '], [' '], '\n' :: blob ++ canonEnd ++ tail) := hm
  have hn' : nearestEnd ('\n' :: blob ++ canonEnd ++ tail) =
      some ('\n' :: blob, [' '], [' '], tail) := hn
  rw [hm']
  simp only [hn']

/-- After a splice the first block is the block that was written. -/
theorem firstBlock_written {s blob : Text} {b : Block} (h : firstBlock s = some b)
    (hend : ¬ ContainsMarker endName blob) (tail : Text) :
    firstBlock (b.pre ++ (canonStart ++ '\n' :: blob ++ canonEnd) ++ tail) =
      some ⟨b.pre, [' '], [' '], '\n' :: blob, [' '], [' '], tail⟩ := by
  have hx := blockAt_written hend tail
  have key := @firstBlock_append_of_none b.pre _ _ (fun u v e hv => by
    cases hb : blockAt (v ++ (canonStart ++ ('\n' :: blob ++ canonEnd ++ tail))) with
    | none => rfl
    | some b₂ =>
      exfalso
      obtain ⟨_, hmk, _⟩ := blockAt_some hb
      obtain ⟨v₂, hv₂⟩ := markerAt_within (Or.inl rfl) hv (canonStart_head _) hmk
      obtain ⟨ha, hb', _⟩ := markerAt_some hmk
      obtain ⟨h₁, h₂, h₃, h₄, _⟩ := firstBlock_sound h
      have hnone := firstBlock_pre_none h u v e hv
      have hsome := blockAt_isSome ha hb' h₃ h₄ (v₂ ++ b.startMarker ++ b.interior) b.rest
      rw [hv₂] at hnone
      simp only [Block.whole, Block.endMarker, List.append_assoc] at hnone hsome
      rw [hnone] at hsome
      simp at hsome) hx
  simpa [List.append_assoc] using key

/-- Splicing the same blob twice gives what splicing it once gives, when the
blob contains no end marker. -/
theorem splice_idem {blob : Text} (hend : ¬ ContainsMarker endName blob) (n : Nat) (s : Text)
    (hn : s.length ≤ n) : splice blob (splice blob s) = splice blob s := by
  induction n generalizing s with
  | zero =>
    have hs : s = [] := List.length_eq_zero.1 (Nat.le_zero.1 hn)
    subst hs
    rfl
  | succ n ih =>
    cases h : firstBlock s with
    | none =>
      have e : splice blob s = s := by rw [splice_eq, h]
      rw [e, e]
    | some b =>
      have e : splice blob s =
          b.pre ++ (canonStart ++ '\n' :: blob ++ canonEnd) ++ splice blob b.rest := by
        rw [splice_eq, h]
      have hlt := firstBlock_rest_lt h
      rw [e, splice_eq, firstBlock_written h hend]
      simp only []
      rw [ih b.rest (by omega)]

/-! ## The root command -/

theorem log_files (w : World) (e : Event) : (w.log e).files = w.files := rfl

theorem log_writeFault (w : World) (e : Event) : (w.log e).writeFault = w.writeFault := rfl

theorem log_trace (w : World) (e : Event) : (w.log e).trace = w.trace ++ [e] := rfl

theorem renderItems_day {R C L : Type} (env : Env R C L) (commits : C) (languages : L)
    (rest : List Text) (content : Text) (w : World) :
    renderItems env commits languages (dayStatsItem :: rest) content w =
      match env.getDailyCommitData env.cfg commits with
      | .error cause => (.error (.dailyStats cause), w.log .dailyStats)
      | .ok v => renderItems env commits languages rest (content ++ codeBlock v) (w.log .dailyStats) := by
  rw [renderItems]
  simp only [if_true]

theorem renderItems_week {R C L : Type} (env : Env R C L) (commits : C) (languages : L)
    (rest : List Text) (content : Text) (w : World) :
    renderItems env commits languages (weekStatsItem :: rest) content w =
      match env.getWeeklyCommitData env.cfg commits with
      | .error cause => (.error (.weeklyStats cause), w.log .weeklyStats)
      | .ok v => renderItems env commits languages rest (content ++ codeBlock v) (w.log .weeklyStats) := by
  have h : weekStatsItem ≠ dayStatsItem := by decide
  rw [renderItems]
  simp only [h, if_true, if_false]

theorem renderItems_language {R C L : Type} (env : Env R C L) (commits : C) (languages : L)
    (rest : List Text) (content : Text) (w : World) :
    renderItems env commits languages (languageStatsItem :: rest) content w =
      match env.getLanguageData env.cfg languages with
      | .error cause => (.error (.languageStats cause), w.log .languageStats)
      | .ok v =>
        renderItems env commits languages rest (content ++ codeBlock v) (w.log .languageStats) := by
  have h₁ : languageStatsItem ≠ dayStatsItem := by decide
  have h₂ : languageStatsItem ≠ weekStatsItem := by decide
  rw [renderItems]
  simp only [h₁, h₂, if_true, if_false]

theorem renderItems_unknown {R C L : Type} (env : Env R C L) (commits : C) (languages : L)
    {item : Text} (h₁ : item ≠ dayStatsItem) (h₂ : item ≠ weekStatsItem)
    (h₃ : item ≠ languageStatsItem) (rest : List Text) (content : Text) (w : World) :
    renderItems env commits languages (item :: rest) content w =
      renderItems env commits languages rest (content ++ unknownItem item) w := by
  rw [renderItems]
  simp only [h₁, h₂, h₃, if_false]

/-- The four cases of an item of the include list. -/
theorem item_cases (item : Text) :
    item = dayStatsItem ∨ item = weekStatsItem ∨ item = languageStatsItem ∨
      (item ≠ dayStatsItem ∧ item ≠ weekStatsItem ∧ item ≠ languageStatsItem) := by
  by_cases h₁ : item = dayStatsItem
  · exact Or.inl h₁
  · by_cases h₂ : item = weekStatsItem
    · exact Or.inr (Or.inl h₂)
    · by_cases h₃ : item = languageStatsItem
      · exact Or.inr (Or.inr (Or.inl h₃))
      · exact Or.inr (Or.inr (Or.inr ⟨h₁, h₂, h₃⟩))

/-- The loop over the include list touches no file; it only calls statistic
functions. -/
theorem renderItems_frame {R C L : Type} (env : Env R C L) (commits : C) (languages : L)
    (items : List Text) (content : Text) (w : World) :
    (renderItems env commits languages items content w).2.files = w.files ∧
      (renderItems env commits languages items content w).2.writeFault = w.writeFault ∧
      ∃ evs, (renderItems env commits languages items content w).2.trace = w.trace ++ evs ∧
        ∀ ev ∈ evs, ev.IsStats := by
  induction items generalizing content w with
  | nil => exact ⟨rfl, rfl, [], by simp [renderItems], by simp⟩
  | cons item rest ih =>
    have step : ∀ (e₀ : Event) (v : Text), e₀.IsStats →
        (renderItems env commits languages rest (content ++ codeBlock v) (w.log e₀)).2.files =
            w.files ∧
          (renderItems env commits languages rest (content ++ codeBlock v)
            (w.log e₀)).2.writeFault = w.writeFault ∧
          ∃ evs, (renderItems env commits languages rest (content ++ codeBlock v)
            (w.log e₀)).2.trace = w.trace ++ evs ∧ ∀ ev ∈ evs, ev.IsStats := by
      intro e₀ v he
      obtain ⟨f, g, evs, ht, hs⟩ := ih (content ++ codeBlock v) (w.log e₀)
      refine ⟨f, g, e₀ :: evs, by simp [ht, log_trace], ?_⟩
      intro ev hev
      rcases List.mem_cons.1 hev with rfl | h
      · exact he
      · exact hs ev h
    rcases item_cases item with rfl | rfl | rfl | ⟨h₁, h₂, h₃⟩
    · rw [renderItems_day]
      cases env.getDailyCommitData env.cfg commits with
      | error cause => exact ⟨rfl, rfl, [.dailyStats], rfl, by simp [Event.IsStats]⟩
      | ok v => exact step _ v (Or.inl rfl)
    · rw [renderItems_week]
      cases env.getWeeklyCommitData env.cfg commits with
      | error cause => exact ⟨rfl, rfl, [.weeklyStats], rfl, by simp [Event.IsStats]⟩
      | ok v => exact step _ v (Or.inr (Or.inl rfl))
    · rw [renderItems_language]
      cases env.getLanguageData env.cfg languages with
      | error cause => exact ⟨rfl, rfl, [.languageStats], rfl, by simp [Event.IsStats]⟩
      | ok v => exact step _ v (Or.inr (Or.inr rfl))
    · rw [renderItems_unknown env commits languages h₁ h₂ h₃]
      exact ih _ _

theorem buildContent_snd {R C L : Type} (env : Env R C L) (commits : C) (languages : L)
    (w : World) :
    (buildContent env commits languages w).2 =
      (renderItems env commits languages env.includes [] w).2 := by
  unfold buildContent
  rcases h : renderItems env commits languages env.includes [] w with ⟨r, w₁⟩
  cases r <;> rfl

/-- An error of `updateReadme` other than a failed write leaves the files as
they were: only the read is recorded. -/
theorem updateReadme_error_frame {letterOrDigit : Char → Bool} {w w₁ : World} {path : String}
    {blob : Text} {e : UpdateError} (hrun : updateReadme letterOrDigit w path blob = (.error e, w₁))
    (hnw : ∀ cause, e ≠ .write cause) : w₁ = w.log (.readFile path) := by
  unfold updateReadme at hrun
  cases hf : w.files path with
  | error cause =>
    simp only [hf, Prod.mk.injEq] at hrun
    exact hrun.2.symm
  | ok data =>
    simp only [hf] at hrun
    cases hm : re.find data with
    | none =>
      simp only [hm, Prod.mk.injEq] at hrun
      exact hrun.2.symm
    | some m =>
      simp only [hm] at hrun
      cases hw : w.writeFault path (ReplaceAllString letterOrDigit re data (replacement blob)) with
      | some fault =>
        simp only [hw, Prod.mk.injEq, Except.error.injEq] at hrun
        exact absurd hrun.1.symm (hnw _)
      | none => simp [hw] at hrun

theorem isStats_ne_write {ev : Event} (h : ev.IsStats) (path : String) (data : Text) :
    ev ≠ .writeFile path data := by
  rcases h with rfl | rfl | rfl <;> simp

/-- Claim C5: when the loaded configuration has an empty GitHub token, the root
command returns the missing-token error at once and the world is untouched: the
trace gets no event, so no client is created, no fetch is called and the README
is neither read nor written. -/
theorem missing_token_stops_first {R C L : Type} (env : Env R C L) (w : World)
    (h : env.cfg.githubToken = "") :
    runE env w = (.error .tokenMissing, w) ∧
      RunError.tokenMissing.message = "GITHUB_TOKEN not provided" := by
  refine ⟨?_, rfl⟩
  unfold runE
  simp [h]

/-- A run with an empty token and a README: the error is returned and the world is as before. -/
theorem missing_token_stops_first_witness :
    runE (sampleEnv "" [dayStatsItem] (.ok "day".toList)) (oneFile "/repo/README.md" []) =
        (.error .tokenMissing, oneFile "/repo/README.md" []) ∧
      RunError.tokenMissing.message = "GITHUB_TOKEN not provided" :=
  missing_token_stops_first (sampleEnv "" [dayStatsItem] (.ok "day".toList))
    (oneFile "/repo/README.md" []) rfl

/-- Claim C4, as the code has it: a run of the root command that returns an
error other than the error of the final write itself (so: missing token,
working directory, repository enumeration, commit fetch, language fetch, a
statistic, reading the README, or no marker block) leaves every file as it was,
and no write is among the events of the run. -/
theorem error_leaves_readme {R C L : Type} (env : Env R C L) (w w₁ : World) (e : RunError)
    (hrun : runE env w = (.error e, w₁)) (hnw : ∀ cause, e ≠ .updateReadme (.write cause)) :
    w₁.files = w.files ∧
      ∃ evs, w₁.trace = w.trace ++ evs ∧ ∀ path data, Event.writeFile path data ∉ evs := by
  unfold runE at hrun
  by_cases ht : env.cfg.githubToken = ""
  · simp only [ht, if_true, Prod.mk.injEq] at hrun
    obtain ⟨_, rfl⟩ := hrun
    exact ⟨rfl, [], by simp, by simp⟩
  · simp only [ht, if_false] at hrun
    cases hc : env.cwd with
    | error cause =>
      simp only [hc, Prod.mk.injEq] at hrun
      obtain ⟨_, rfl⟩ := hrun
      exact ⟨rfl, [.getwd], rfl, by simp⟩
    | ok cwd =>
      simp only [hc] at hrun
      cases hr : env.fetchRepositories env.cfg.githubToken with
      | error cause =>
        simp only [hr, Prod.mk.injEq] at hrun
        obtain ⟨_, rfl⟩ := hrun
        exact ⟨rfl, [.getwd, .newClient env.cfg.githubToken, .fetchRepositories],
          by simp [log_trace], by simp⟩
      | ok repositories =>
        simp only [hr] at hrun
        cases hcm : env.fetchCommitsFromRepositories env.cfg.githubToken repositories with
        | error cause =>
          simp only [hcm, Prod.mk.injEq] at hrun
          obtain ⟨_, rfl⟩ := hrun
          exact ⟨rfl, [.getwd, .newClient env.cfg.githubToken, .fetchRepositories, .fetchCommits],
            by simp [log_trace], by simp⟩
        | ok commits =>
          simp only [hcm] at hrun
          cases hl : env.fetchLanguagesFromRepositories env.cfg.githubToken repositories with
          | error cause =>
            simp only [hl, Prod.mk.injEq] at hrun
            obtain ⟨_, rfl⟩ := hrun
            exact ⟨rfl, [.getwd, .newClient env.cfg.githubToken, .fetchRepositories,
              .fetchCommits, .fetchLanguages], by simp [log_trace], by simp⟩
          | ok languages =>
            simp only [hl] at hrun
            have hsnd := buildContent_snd env commits languages
              (((((w.log .getwd).log (.newClient env.cfg.githubToken)).log
                .fetchRepositories).log .fetchCommits).log .fetchLanguages)
            obtain ⟨hf, _, evs, htr, hst⟩ := renderItems_frame env commits languages env.includes []
              (((((w.log .getwd).log (.newClient env.cfg.githubToken)).log
                .fetchRepositories).log .fetchCommits).log .fetchLanguages)
            rw [← hsnd] at hf htr
            rcases hb : buildContent env commits languages
              (((((w.log .getwd).log (.newClient env.cfg.githubToken)).log
                .fetchRepositories).log .fetchCommits).log .fetchLanguages) with ⟨r, w₆⟩
            rw [hb] at hf htr hrun
            simp only [log_files, log_trace] at hf htr
            have hnost : ∀ path data, Event.writeFile path data ∉ evs :=
              fun path data hmem => isStats_ne_write (hst _ hmem) path data rfl
            cases r with
            | error e₁ =>
              simp only [Prod.mk.injEq] at hrun
              obtain ⟨_, rfl⟩ := hrun
              refine ⟨hf, [.getwd, .newClient env.cfg.githubToken, .fetchRepositories,
                .fetchCommits, .fetchLanguages] ++ evs, by rw [htr]; simp, ?_⟩
              intro path data hmem
              rcases List.mem_append.1 hmem with h | h
              · simp at h
              · exact hnost path data h
            | ok content =>
              simp only [] at hrun
              rcases hu : updateReadme env.letterOrDigit w₆ (env.joinPath cwd "README.md")
                content with ⟨r₂, w₇⟩
              rw [hu] at hrun
              cases r₂ with
              | ok u => simp at hrun
              | error e₂ =>
                simp only [Prod.mk.injEq, Except.error.injEq] at hrun
                obtain ⟨rfl, rfl⟩ := hrun
                have hw₇ := updateReadme_error_frame hu
                  (fun cause hc₂ => hnw cause (by rw [hc₂]))
                subst hw₇
                refine ⟨hf, [.getwd, .newClient env.cfg.githubToken, .fetchRepositories,
                  .fetchCommits, .fetchLanguages] ++ evs ++
                  [.readFile (env.joinPath cwd "README.md")], ?_, ?_⟩
                · rw [log_trace, htr]
                  simp
                · intro path data hmem
                  rcases List.mem_append.1 hmem with h | h
                  · rcases List.mem_append.1 h with h | h
                    · simp at h
                    · exact hnost path data h
                  · simp at h

/-- A run that fails because the README has no marker block: the files are as before and no write is among the events. -/
theorem error_leaves_readme_witness :
    (runE (sampleEnv "token" [dayStatsItem] (.ok "day".toList))
        (oneFile "/repo/README.md" "no markers here".toList)).2.files =
        (oneFile "/repo/README.md" "no markers here".toList).files ∧
      ∃ evs, (runE (sampleEnv "token" [dayStatsItem] (.ok "day".toList))
          (oneFile "/repo/README.md" "no markers here".toList)).2.trace =
          (oneFile "/repo/README.md" "no markers here".toList).trace ++ evs ∧
        ∀ path data, Event.writeFile path data ∉ evs :=
  error_leaves_readme (sampleEnv "token" [dayStatsItem] (.ok "day".toList))
    (oneFile "/repo/README.md" "no markers here".toList)
    (runE (sampleEnv "token" [dayStatsItem] (.ok "day".toList))
      (oneFile "/repo/README.md" "no markers here".toList)).2
    (.updateReadme .noBlock) (by rfl) (by simp)

/-- Claim C4, counterexample: a README with a block and a write that fails
part-way.  The run returns the error of the write, and the README, which held
the original text before the run, holds a truncated text after it. -/
theorem failed_write_counterexample :
    (runE (sampleEnv "token" [] (.ok "day".toList))
        (faultyFile "/repo/README.md"
          "pre<!-- README-STATS:START -->old<!-- README-STATS:END -->post".toList
          "write /repo/README.md: file too large" "pre<!-- README-S".toList)).1 =
        .error (.updateReadme (.write "write /repo/README.md: file too large")) ∧
      (faultyFile "/repo/README.md"
          "pre<!-- README-STATS:START -->old<!-- README-STATS:END -->post".toList
          "write /repo/README.md: file too large" "pre<!-- README-S".toList).files
          "/repo/README.md" =
        .ok "pre<!-- README-STATS:START -->old<!-- README-STATS:END -->post".toList ∧
      (runE (sampleEnv "token" [] (.ok "day".toList))
        (faultyFile "/repo/README.md"
          "pre<!-- README-STATS:START -->old<!-- README-STATS:END -->post".toList
          "write /repo/README.md: file too large" "pre<!-- README-S".toList)).2.files
          "/repo/README.md" =
        .ok "pre<!-- README-S".toList ∧
      "pre<!-- README-S".toList ≠
        "pre<!-- README-STATS:START -->old<!-- README-STATS:END -->post".toList :=
  ⟨by rfl, by rfl, by rfl, by decide⟩

/-- The loop over a list in two parts: the first part, then the second part
from the builder and the world the first part left. -/
theorem renderItems_append {R C L : Type} (env : Env R C L) (commits : C) (languages : L)
    (xs ys : List Text) (content : Text) (w : World) :
    renderItems env commits languages (xs ++ ys) content w =
      match renderItems env commits languages xs content w with
      | (.ok c₁, w₁) => renderItems env commits languages ys c₁ w₁
      | (.error e, w₁) => (.error e, w₁) := by
  induction xs generalizing content w with
  | nil => simp [renderItems]
  | cons item rest ih =>
    simp only [List.cons_append]
    rcases item_cases item with rfl | rfl | rfl | ⟨h₁, h₂, h₃⟩
    · rw [renderItems_day, renderItems_day]
      cases env.getDailyCommitData env.cfg commits with
      | error cause => rfl
      | ok v => exact ih _ _
    · rw [renderItems_week, renderItems_week]
      cases env.getWeeklyCommitData env.cfg commits with
      | error cause => rfl
      | ok v => exact ih _ _
    · rw [renderItems_language, renderItems_language]
      cases env.getLanguageData env.cfg languages with
      | error cause => rfl
      | ok v => exact ih _ _
    · rw [renderItems_unknown env commits languages h₁ h₂ h₃,
        renderItems_unknown env commits languages h₁ h₂ h₃]
      exact ih _ _

/-- Whether and how the loop fails does not depend on what the builder
holds. -/
theorem renderItems_error_indep {R C L : Type} (env : Env R C L) (commits : C) (languages : L)
    (items : List Text) (c₁ c₂ : Text) (w : World) (e : RunError) (w₁ : World) :
    renderItems env commits languages items c₁ w = (.error e, w₁) ↔
      renderItems env commits languages items c₂ w = (.error e, w₁) := by
  induction items generalizing c₁ c₂ w with
  | nil => simp [renderItems]
  | cons item rest ih =>
    rcases item_cases item with rfl | rfl | rfl | ⟨h₁, h₂, h₃⟩
    · rw [renderItems_day, renderItems_day]
      cases env.getDailyCommitData env.cfg commits with
      | error cause => rfl
      | ok v => exact ih _ _ _
    · rw [renderItems_week, renderItems_week]
      cases env.getWeeklyCommitData env.cfg commits with
      | error cause => rfl
      | ok v => exact ih _ _ _
    · rw [renderItems_language, renderItems_language]
      cases env.getLanguageData env.cfg languages with
      | error cause => rfl
      | ok v => exact ih _ _ _
    · rw [renderItems_unknown env commits languages h₁ h₂ h₃,
        renderItems_unknown env commits languages h₁ h₂ h₃]
      exact ih _ _ _

/-- The loop only appends to the builder. -/
theorem renderItems_extends {R C L : Type} (env : Env R C L) (commits : C) (languages : L)
    (items : List Text) (content : Text) (w : World) (out : Text) (w₁ : World)
    (h : renderItems env commits languages items content w = (.ok out, w₁)) :
    ∃ t, out = content ++ t := by
  induction items generalizing content w with
  | nil =>
    simp only [renderItems, Prod.mk.injEq, Except.ok.injEq] at h
    exact ⟨[], by simp [h.1]⟩
  | cons item rest ih =>
    rcases item_cases item with rfl | rfl | rfl | ⟨h₁, h₂, h₃⟩
    · rw [renderItems_day] at h
      cases hv : env.getDailyCommitData env.cfg commits with
      | error cause => simp [hv] at h
      | ok v =>
        simp only [hv] at h
        obtain ⟨t, ht⟩ := ih _ _ h
        exact ⟨codeBlock v ++ t, by simp [ht]⟩
    · rw [renderItems_week] at h
      cases hv : env.getWeeklyCommitData env.cfg commits with
      | error cause => simp [hv] at h
      | ok v =>
        simp only [hv] at h
        obtain ⟨t, ht⟩ := ih _ _ h
        exact ⟨codeBlock v ++ t, by simp [ht]⟩
    · rw [renderItems_language] at h
      cases hv : env.getLanguageData env.cfg languages with
      | error cause => simp [hv] at h
      | ok v =>
        simp only [hv] at h
        obtain ⟨t, ht⟩ := ih _ _ h
        exact ⟨codeBlock v ++ t, by simp [ht]⟩
    · rw [renderItems_unknown env commits languages h₁ h₂ h₃] at h
      obtain ⟨t, ht⟩ := ih _ _ h
      exact ⟨unknownItem item ++ t, by simp [ht]⟩

/-- The loop does not read the include list of the environment. -/
theorem renderItems_includes {R C L : Type} (env : Env R C L) (commits : C) (languages : L)
    (inc items : List Text) (content : Text) (w : World) :
    renderItems { env with includes := inc } commits languages items content w =
      renderItems env commits languages items content w := by
  induction items generalizing content w with
  | nil => simp [renderItems]
  | cons item rest ih =>
    rcases item_cases item with rfl | rfl | rfl | ⟨h₁, h₂, h₃⟩
    · rw [renderItems_day, renderItems_day]
      cases env.getDailyCommitData env.cfg commits with
      | error cause => rfl
      | ok v => exact ih _ _
    · rw [renderItems_week, renderItems_week]
      cases env.getWeeklyCommitData env.cfg commits with
      | error cause => rfl
      | ok v => exact ih _ _
    · rw [renderItems_language, renderItems_language]
      cases env.getLanguageData env.cfg languages with
      | error cause => rfl
      | ok v => exact ih _ _
    · rw [renderItems_unknown _ commits languages h₁ h₂ h₃,
        renderItems_unknown env commits languages h₁ h₂ h₃]
      exact ih _ _

theorem buildContent_error_iff {R C L : Type} (env : Env R C L) (commits : C) (languages : L)
    (w : World) (e : RunError) (w₁ : World) :
    buildContent env commits languages w = (.error e, w₁) ↔
      renderItems env commits languages env.includes [] w = (.error e, w₁) := by
  unfold buildContent
  rcases renderItems env commits languages env.includes [] w with ⟨r, w₂⟩
  cases r <;> simp

theorem buildContent_ok_iff {R C L : Type} (env : Env R C L) (commits : C) (languages : L)
    (w : World) (blob : Text) (w₁ : World) :
    buildContent env commits languages w = (.ok blob, w₁) ↔
      ∃ content, renderItems env commits languages env.includes [] w = (.ok content, w₁) ∧
        blob = content ++ "\n".toList := by
  unfold buildContent
  rcases renderItems env commits languages env.includes [] w with ⟨r, w₂⟩
  cases r with
  | error e => simp
  | ok c =>
    simp only [Prod.mk.injEq, Except.ok.injEq]
    constructor
    · rintro ⟨rfl, rfl⟩
      exact ⟨c, ⟨rfl, rfl⟩, rfl⟩
    · rintro ⟨c', ⟨rfl, rfl⟩, rfl⟩
      exact ⟨rfl, rfl⟩

/-- Claim C7: an item of the include list that is none of `DAY_STATS`,
`WEEK_STATS`, `LANGUAGE_STATS` never makes the run fail (the blob building
fails with it exactly when it fails without it, with the same error); the blob
contains the placeholder `"\n\nUnknown item: <item>\n"`; and the items after it
are processed from the builder extended by the placeholder. -/
theorem unknown_item_placeholder {R C L : Type} (env : Env R C L) (commits : C)
    (languages : L) (w : World) (items₁ items₂ : List Text) (item : Text)
    (hinc : env.includes = items₁ ++ item :: items₂) (hd : item ≠ dayStatsItem)
    (hw : item ≠ weekStatsItem) (hl : item ≠ languageStatsItem) :
    (∀ e w₁, buildContent env commits languages w = (.error e, w₁) ↔
      buildContent { env with includes := items₁ ++ items₂ } commits languages w =
        (.error e, w₁)) ∧
    (∀ blob w₁, buildContent env commits languages w = (.ok blob, w₁) →
      "\n\nUnknown item: ".toList ++ item ++ "\n".toList <:+: blob) ∧
    (∀ content w₀, renderItems env commits languages (items₁ ++ item :: items₂) content w₀ =
      match renderItems env commits languages items₁ content w₀ with
      | (.ok c₁, w₁) =>
        renderItems env commits languages items₂
          (c₁ ++ ("\n\nUnknown item: ".toList ++ item ++ "\n".toList)) w₁
      | (.error e, w₁) => (.error e, w₁)) := by
  have hstep : ∀ content w₀,
      renderItems env commits languages (items₁ ++ item :: items₂) content w₀ =
        match renderItems env commits languages items₁ content w₀ with
        | (.ok c₁, w₁) =>
          renderItems env commits languages items₂
            (c₁ ++ ("\n\nUnknown item: ".toList ++ item ++ "\n".toList)) w₁
        | (.error e, w₁) => (.error e, w₁) := by
    intro content w₀
    rw [renderItems_append]
    rcases renderItems env commits languages items₁ content w₀ with ⟨r, w₁⟩
    cases r with
    | error e => rfl
    | ok c₁ => exact renderItems_unknown env commits languages hd hw hl items₂ c₁ w₁
  refine ⟨?_, ?_, hstep⟩
  · intro e w₁
    have hleft : buildContent env commits languages w = (.error e, w₁) ↔
        renderItems env commits languages (items₁ ++ item :: items₂) [] w = (.error e, w₁) := by
      rw [buildContent_error_iff, hinc]
    have hright : buildContent { env with includes := items₁ ++ items₂ } commits languages w =
          (.error e, w₁) ↔
        renderItems env commits languages (items₁ ++ items₂) [] w = (.error e, w₁) := by
      rw [buildContent_error_iff]
      show renderItems { env with includes := items₁ ++ items₂ } commits languages
        (items₁ ++ items₂) [] w = _ ↔ _
      rw [renderItems_includes]
    rw [hleft, hright, hstep, renderItems_append]
    rcases renderItems env commits languages items₁ [] w with ⟨r, w₂⟩
    cases r with
    | error e₁ => rfl
    | ok c₁ => exact renderItems_error_indep env commits languages items₂ _ _ _ _ _
  · intro blob w₁ hb
    obtain ⟨content, hr, rfl⟩ := (buildContent_ok_iff env commits languages w blob w₁).1 hb
    rw [hinc, hstep] at hr
    rcases h₁ : renderItems env commits languages items₁ [] w with ⟨r, w₂⟩
    rw [h₁] at hr
    cases r with
    | error e₁ => simp at hr
    | ok c₁ =>
      obtain ⟨t, ht⟩ := renderItems_extends env commits languages items₂ _ _ _ _ hr
      exact ⟨c₁, t ++ "\n".toList, by rw [ht]; simp only [List.append_assoc]⟩

/-- The include list `DAY_STATS`, `FOO`, `WEEK_STATS`: the blob contains the placeholder for `FOO`, between the two statistics. -/
theorem unknown_item_placeholder_witness :
    "\n\nUnknown item: ".toList ++ "FOO".toList ++ "\n".toList <:+:
      "\n```\nday\n```\n\n\nUnknown item: FOO\n\n```\nweek\n```\n\n".toList :=
  (unknown_item_placeholder
    (sampleEnv "token" [dayStatsItem, "FOO".toList, weekStatsItem] (.ok "day".toList)) () ()
    (oneFile "/repo/README.md" []) [dayStatsItem] [weekStatsItem] "FOO".toList rfl
    (by decide) (by decide) (by decide)).2.1 _
    (((oneFile "/repo/README.md" []).log .dailyStats).log .weeklyStats) (by rfl)

theorem expectedPiece_day (daily weekly language : Text) :
    expectedPiece daily weekly language dayStatsItem = codeBlock daily := by
  simp [expectedPiece, codeBlock]

theorem expectedPiece_week (daily weekly language : Text) :
    expectedPiece daily weekly language weekStatsItem = codeBlock weekly := by
  have h : weekStatsItem ≠ dayStatsItem := by decide
  simp [expectedPiece, codeBlock, h]

theorem expectedPiece_language (daily weekly language : Text) :
    expectedPiece daily weekly language languageStatsItem = codeBlock language := by
  have h₁ : languageStatsItem ≠ dayStatsItem := by decide
  have h₂ : languageStatsItem ≠ weekStatsItem := by decide
  simp [expectedPiece, codeBlock, h₁, h₂]

theorem expectedPiece_unknown (daily weekly language : Text) {item : Text}
    (h₁ : item ≠ dayStatsItem) (h₂ : item ≠ weekStatsItem) (h₃ : item ≠ languageStatsItem) :
    expectedPiece daily weekly language item = unknownItem item := by
  simp [expectedPiece, unknownItem, h₁, h₂, h₃]

/-- When every requested statistic succeeds, the loop appends the pieces of the
items in order. -/
theorem renderItems_ok {R C L : Type} (env : Env R C L) (commits : C) (languages : L)
    (daily weekly language : Text) (items : List Text) (content : Text) (w : World)
    (hday : dayStatsItem ∈ items → env.getDailyCommitData env.cfg commits = .ok daily)
    (hweek : weekStatsItem ∈ items → env.getWeeklyCommitData env.cfg commits = .ok weekly)
    (hlang : languageStatsItem ∈ items → env.getLanguageData env.cfg languages = .ok language) :
    (renderItems env commits languages items content w).1 =
      .ok (content ++ (items.map (expectedPiece daily weekly language)).flatten) := by
  induction items generalizing content w with
  | nil => simp [renderItems]
  | cons item rest ih =>
    have ih₁ := fun c w₀ => ih c w₀ (fun h => hday (List.mem_cons_of_mem _ h))
      (fun h => hweek (List.mem_cons_of_mem _ h)) (fun h => hlang (List.mem_cons_of_mem _ h))
    rcases item_cases item with rfl | rfl | rfl | ⟨h₁, h₂, h₃⟩
    · rw [renderItems_day, hday (List.mem_cons_self _ _)]
      simp only [ih₁, List.map_cons, List.flatten_cons, expectedPiece_day, List.append_assoc]
    · rw [renderItems_week, hweek (List.mem_cons_self _ _)]
      simp only [ih₁, List.map_cons, List.flatten_cons, expectedPiece_week, List.append_assoc]
    · rw [renderItems_language, hlang (List.mem_cons_self _ _)]
      simp only [ih₁, List.map_cons, List.flatten_cons, expectedPiece_language,
        List.append_assoc]
    · rw [renderItems_unknown env commits languages h₁ h₂ h₃]
      simp only [ih₁, List.map_cons, List.flatten_cons,
        expectedPiece_unknown daily weekly language h₁ h₂ h₃, List.append_assoc]

/-- Claim C8: when the token is present, the working directory and the three
fetches succeed and every requested statistic function succeeds, the root
command hands to `updateReadme` the blob made of one piece per element of the
include list, in the order of the list (a recognised item gives its rendered
statistic between code fences, any other item its placeholder), followed by one
newline; the files are still as they were at that point; for the empty list the
blob is a single newline. -/
theorem blob_is_pieces_in_order {R C L : Type} (env : Env R C L) (w : World) (dir : String)
    (repositories : R) (commits : C) (languages : L) (daily weekly language : Text)
    (htok : env.cfg.githubToken ≠ "") (hcwd : env.cwd = .ok dir)
    (hr : env.fetchRepositories env.cfg.githubToken = .ok repositories)
    (hc : env.fetchCommitsFromRepositories env.cfg.githubToken repositories = .ok commits)
    (hl : env.fetchLanguagesFromRepositories env.cfg.githubToken repositories = .ok languages)
    (hday : dayStatsItem ∈ env.includes → env.getDailyCommitData env.cfg commits = .ok daily)
    (hweek : weekStatsItem ∈ env.includes →
      env.getWeeklyCommitData env.cfg commits = .ok weekly)
    (hlang : languageStatsItem ∈ env.includes →
      env.getLanguageData env.cfg languages = .ok language) :
    (∃ w₁, w₁.files = w.files ∧ w₁.writeFault = w.writeFault ∧
      runE env w =
        match updateReadme env.letterOrDigit w₁ (env.joinPath dir "README.md")
            (expectedBlob daily weekly language env.includes) with
        | (.error e, w₂) => (.error (.updateReadme e), w₂)
        | (.ok _, w₂) => (.ok (), w₂)) ∧
      expectedBlob daily weekly language [] = "\n".toList := by
  refine ⟨?_, rfl⟩
  obtain ⟨hf, hwf, _⟩ := renderItems_frame env commits languages env.includes []
    (((((w.log .getwd).log (.newClient env.cfg.githubToken)).log
      .fetchRepositories).log .fetchCommits).log .fetchLanguages)
  have hok := renderItems_ok env commits languages daily weekly language env.includes []
    (((((w.log .getwd).log (.newClient env.cfg.githubToken)).log
      .fetchRepositories).log .fetchCommits).log .fetchLanguages) hday hweek hlang
  rcases hrd : renderItems env commits languages env.includes []
    (((((w.log .getwd).log (.newClient env.cfg.githubToken)).log
      .fetchRepositories).log .fetchCommits).log .fetchLanguages) with ⟨r, w₆⟩
  rw [hrd] at hf hwf hok
  simp only [List.nil_append] at hok
  subst hok
  refine ⟨w₆, hf, hwf, ?_⟩
  unfold runE
  simp only [htok, if_false, hcwd, hr, hc, hl, buildContent, hrd, expectedBlob]

/-- The include list `WEEK_STATS`, `FOO`, `DAY_STATS` with all statistics succeeding. -/
theorem blob_is_pieces_in_order_witness :
    (∃ w₁, w₁.files = (oneFile "/repo/README.md" "x".toList).files ∧
      w₁.writeFault = (oneFile "/repo/README.md" "x".toList).writeFault ∧
      runE (sampleEnv "token" [weekStatsItem, "FOO".toList, dayStatsItem] (.ok "day".toList))
          (oneFile "/repo/README.md" "x".toList) =
        match updateReadme asciiLetterOrDigit w₁ "/repo/README.md"
            (expectedBlob "day".toList "week".toList "Go 100.00%".toList
              [weekStatsItem, "FOO".toList, dayStatsItem]) with
        | (.error e, w₂) => (.error (.updateReadme e), w₂)
        | (.ok _, w₂) => (.ok (), w₂)) ∧
      expectedBlob "day".toList "week".toList "Go 100.00%".toList [] = "\n".toList :=
  blob_is_pieces_in_order
    (sampleEnv "token" [weekStatsItem, "FOO".toList, dayStatsItem] (.ok "day".toList))
    (oneFile "/repo/README.md" "x".toList) "/repo" () () () "day".toList "week".toList
    "Go 100.00%".toList (by decide) rfl rfl rfl rfl (fun _ => rfl) (fun _ => rfl) (fun _ => rfl)

theorem itemStatistic_day {R C L : Type} (env : Env R C L) (commits : C) (languages : L) :
    itemStatistic env commits languages dayStatsItem =
      some (env.getDailyCommitData env.cfg commits) := by
  simp [itemStatistic]

theorem itemStatistic_week {R C L : Type} (env : Env R C L) (commits : C) (languages : L) :
    itemStatistic env commits languages weekStatsItem =
      some (env.getWeeklyCommitData env.cfg commits) := by
  have h : weekStatsItem ≠ dayStatsItem := by decide
  simp [itemStatistic, h]

theorem itemStatistic_language {R C L : Type} (env : Env R C L) (commits : C)
    (languages : L) :
    itemStatistic env commits languages languageStatsItem =
      some (env.getLanguageData env.cfg languages) := by
  have h₁ : languageStatsItem ≠ dayStatsItem := by decide
  have h₂ : languageStatsItem ≠ weekStatsItem := by decide
  simp [itemStatistic, h₁, h₂]

theorem itemStatistic_unknown {R C L : Type} (env : Env R C L) (commits : C) (languages : L)
    {item : Text} (h₁ : item ≠ dayStatsItem) (h₂ : item ≠ weekStatsItem)
    (h₃ : item ≠ languageStatsItem) : itemStatistic env commits languages item = none := by
  simp [itemStatistic, h₁, h₂, h₃]

theorem itemEvent_day : itemEvent dayStatsItem = some .dailyStats := by
  simp [itemEvent]

theorem itemEvent_week : itemEvent weekStatsItem = some .weeklyStats := by
  have h : weekStatsItem ≠ dayStatsItem := by decide
  simp [itemEvent, h]

theorem itemEvent_language : itemEvent languageStatsItem = some .languageStats := by
  have h₁ : languageStatsItem ≠ dayStatsItem := by decide
  have h₂ : languageStatsItem ≠ weekStatsItem := by decide
  simp [itemEvent, h₁, h₂]

theorem itemEvent_unknown {item : Text} (h₁ : item ≠ dayStatsItem) (h₂ : item ≠ weekStatsItem)
    (h₃ : item ≠ languageStatsItem) : itemEvent item = none := by
  simp [itemEvent, h₁, h₂, h₃]

theorem itemError_day (cause : String) : itemError dayStatsItem cause = .dailyStats cause := by
  simp [itemError]

theorem itemError_week (cause : String) : itemError weekStatsItem cause = .weeklyStats cause := by
  have h : weekStatsItem ≠ dayStatsItem := by decide
  simp [itemError, h]

theorem itemError_language (cause : String) :
    itemError languageStatsItem cause = .languageStats cause := by
  have h₁ : languageStatsItem ≠ dayStatsItem := by decide
  have h₂ : languageStatsItem ≠ weekStatsItem := by decide
  simp [itemError, h₁, h₂]

theorem world_trace_nil (w : World) : { w with trace := w.trace ++ [] } = w := by
  cases w
  simp

theorem log_with_trace (w : World) (e : Event) (evs : List Event) :
    ({ w.log e with trace := (w.log e).trace ++ evs } : World) =
      { w with trace := w.trace ++ e :: evs } := by
  cases w
  simp [World.log]

/-- While no requested statistic fails, the loop goes through the items and
records exactly their calls, in order. -/
theorem renderItems_of_ok {R C L : Type} (env : Env R C L) (commits : C) (languages : L)
    (items : List Text) (content : Text) (w : World)
    (h : ∀ x ∈ items, ∀ cause, itemStatistic env commits languages x ≠ some (.error cause)) :
    ∃ c₁, renderItems env commits languages items content w =
      (.ok c₁, { w with trace := w.trace ++ items.filterMap itemEvent }) := by
  induction items generalizing content w with
  | nil => exact ⟨content, by simp [renderItems, world_trace_nil]⟩
  | cons item rest ih =>
    have hrest : ∀ x ∈ rest, ∀ cause,
        itemStatistic env commits languages x ≠ some (.error cause) :=
      fun x hx => h x (List.mem_cons_of_mem _ hx)
    have hhead := h item (List.mem_cons_self _ _)
    rcases item_cases item with rfl | rfl | rfl | ⟨h₁, h₂, h₃⟩
    · rw [renderItems_day]
      rw [itemStatistic_day] at hhead
      cases hv : env.getDailyCommitData env.cfg commits with
      | error cause => exact absurd (by rw [hv]) (hhead cause)
      | ok v =>
        obtain ⟨c₁, hc₁⟩ := ih (content ++ codeBlock v) (w.log .dailyStats) hrest
        exact ⟨c₁, by
          simp only [hc₁, List.filterMap_cons, itemEvent_day, log_with_trace]⟩
    · rw [renderItems_week]
      rw [itemStatistic_week] at hhead
      cases hv : env.getWeeklyCommitData env.cfg commits with
      | error cause => exact absurd (by rw [hv]) (hhead cause)
      | ok v =>
        obtain ⟨c₁, hc₁⟩ := ih (content ++ codeBlock v) (w.log .weeklyStats) hrest
        exact ⟨c₁, by
          simp only [hc₁, List.filterMap_cons, itemEvent_week, log_with_trace]⟩
    · rw [renderItems_language]
      rw [itemStatistic_language] at hhead
      cases hv : env.getLanguageData env.cfg languages with
      | error cause => exact absurd (by rw [hv]) (hhead cause)
      | ok v =>
        obtain ⟨c₁, hc₁⟩ := ih (content ++ codeBlock v) (w.log .languageStats) hrest
        exact ⟨c₁, by
          simp only [hc₁, List.filterMap_cons, itemEvent_language, log_with_trace]⟩
    · rw [renderItems_unknown env commits languages h₁ h₂ h₃]
      obtain ⟨c₁, hc₁⟩ := ih (content ++ unknownItem item) w hrest
      exact ⟨c₁, by simp only [hc₁, List.filterMap_cons, itemEvent_unknown h₁ h₂ h₃]⟩

/-- At an item whose statistic fails the loop stops with the error of that
statistic, after the call of its function. -/
theorem renderItems_fail_head {R C L : Type} (env : Env R C L) (commits : C) (languages : L)
    (item : Text) (rest : List Text) (content : Text) (w : World) (cause : String)
    (h : itemStatistic env commits languages item = some (.error cause)) :
    renderItems env commits languages (item :: rest) content w =
      (.error (itemError item cause), { w with trace := w.trace ++ (itemEvent item).toList }) := by
  rcases item_cases item with rfl | rfl | rfl | ⟨h₁, h₂, h₃⟩
  · rw [itemStatistic_day] at h
    rw [renderItems_day, Option.some.inj h, itemError_day, itemEvent_day]
    rfl
  · rw [itemStatistic_week] at h
    rw [renderItems_week, Option.some.inj h, itemError_week, itemEvent_week]
    rfl
  · rw [itemStatistic_language] at h
    rw [renderItems_language, Option.some.inj h, itemError_language, itemEvent_language]
    rfl
  · rw [itemStatistic_unknown env commits languages h₁ h₂ h₃] at h
    simp at h

/-- When a requested statistic fails, the include list has a first item whose
statistic fails. -/
theorem first_failing_item {R C L : Type} (env : Env R C L) (commits : C) (languages : L)
    (items : List Text) (hfail : StatisticFails env commits languages items) :
    ∃ items₁ item items₂ cause, items = items₁ ++ item :: items₂ ∧
      (∀ x ∈ items₁, ∀ c, itemStatistic env commits languages x ≠ some (.error c)) ∧
      itemStatistic env commits languages item = some (.error cause) := by
  have hwd : weekStatsItem ≠ dayStatsItem := by decide
  have hld : languageStatsItem ≠ dayStatsItem := by decide
  have hlw : languageStatsItem ≠ weekStatsItem := by decide
  induction items with
  | nil =>
    rcases hfail with ⟨h, _⟩ | ⟨h, _⟩ | ⟨h, _⟩ <;> simp at h
  | cons item rest ih =>
    by_cases hhead : ∃ cause, itemStatistic env commits languages item = some (.error cause)
    · obtain ⟨cause, hc⟩ := hhead
      exact ⟨[], item, rest, cause, rfl, by simp, hc⟩
    · have hne : ∀ c, itemStatistic env commits languages item ≠ some (.error c) :=
        fun c hc => hhead ⟨c, hc⟩
      have htail : StatisticFails env commits languages rest := by
        rcases hfail with ⟨h, c, hc⟩ | ⟨h, c, hc⟩ | ⟨h, c, hc⟩
        · rcases List.mem_cons.1 h with rfl | h
          · exact absurd (by rw [itemStatistic_day, hc]) (hne c)
          · exact Or.inl ⟨h, c, hc⟩
        · rcases List.mem_cons.1 h with rfl | h
          · exact absurd (by rw [itemStatistic_week, hc]) (hne c)
          · exact Or.inr (Or.inl ⟨h, c, hc⟩)
        · rcases List.mem_cons.1 h with rfl | h
          · exact absurd (by rw [itemStatistic_language, hc]) (hne c)
          · exact Or.inr (Or.inr ⟨h, c, hc⟩)
      obtain ⟨items₁, x, items₂, cause, he, hok, hx⟩ := ih htail
      refine ⟨item :: items₁, x, items₂, cause, by rw [he]; rfl, ?_, hx⟩
      intro y hy
      rcases List.mem_cons.1 hy with rfl | hy
      · exact hne
      · exact hok y hy

/-- Claim C6, as the code has it: when the token is present, the working
directory and the three fetches succeed and a requested statistic function
returns an error (for instance because the time zone cannot be resolved), the
run fails with the error of the first item of the include list whose statistic
fails, carrying the cause that this statistic function returned; no file is
touched; and the events of the run are the working directory, the client, the
three fetches in order, then the statistic calls of the items before the
failing one, then the failing call. -/
theorem statistic_failure_after_fetches {R C L : Type} (env : Env R C L) (w : World)
    (dir : String) (repositories : R) (commits : C) (languages : L)
    (htok : env.cfg.githubToken ≠ "") (hcwd : env.cwd = .ok dir)
    (hr : env.fetchRepositories env.cfg.githubToken = .ok repositories)
    (hc : env.fetchCommitsFromRepositories env.cfg.githubToken repositories = .ok commits)
    (hl : env.fetchLanguagesFromRepositories env.cfg.githubToken repositories = .ok languages)
    (hfail : StatisticFails env commits languages env.includes) :
    ∃ items₁ item items₂ cause, env.includes = items₁ ++ item :: items₂ ∧
      (∀ x ∈ items₁, ∀ c, itemStatistic env commits languages x ≠ some (.error c)) ∧
      itemStatistic env commits languages item = some (.error cause) ∧
      runE env w =
        (.error (itemError item cause),
          { w with
            trace := w.trace ++ [.getwd, .newClient env.cfg.githubToken, .fetchRepositories,
              .fetchCommits, .fetchLanguages] ++ items₁.filterMap itemEvent ++
              (itemEvent item).toList }) := by
  obtain ⟨items₁, item, items₂, cause, hinc, hok, hitem⟩ :=
    first_failing_item env commits languages env.includes hfail
  refine ⟨items₁, item, items₂, cause, hinc, hok, hitem, ?_⟩
  obtain ⟨c₁, hc₁⟩ := renderItems_of_ok env commits languages items₁ []
    (((((w.log .getwd).log (.newClient env.cfg.githubToken)).log
      .fetchRepositories).log .fetchCommits).log .fetchLanguages) hok
  unfold runE
  simp only [htok, if_false, hcwd, hr, hc, hl, buildContent, hinc, renderItems_append, hc₁,
    renderItems_fail_head env commits languages item items₂ _ _ cause hitem]
  cases w
  simp [World.log]

/-- The include list `WEEK_STATS`, `DAY_STATS` with a daily statistic that
fails on the time zone: the run fails with the error of the daily statistic
after the fetches and the call of the weekly statistic. -/
theorem statistic_failure_after_fetches_witness :
    ∃ items₁ item items₂ cause,
      (sampleEnv "token" [weekStatsItem, dayStatsItem]
        (.error "unknown time zone Nowhere/Land")).includes = items₁ ++ item :: items₂ ∧
      (∀ x ∈ items₁, ∀ c,
        itemStatistic (sampleEnv "token" [weekStatsItem, dayStatsItem]
          (.error "unknown time zone Nowhere/Land")) () () x ≠ some (.error c)) ∧
      itemStatistic (sampleEnv "token" [weekStatsItem, dayStatsItem]
        (.error "unknown time zone Nowhere/Land")) () () item = some (.error cause) ∧
      runE (sampleEnv "token" [weekStatsItem, dayStatsItem]
          (.error "unknown time zone Nowhere/Land")) (oneFile "/repo/README.md" "x".toList) =
        (.error (itemError item cause),
          { oneFile "/repo/README.md" "x".toList with
            trace := (oneFile "/repo/README.md" "x".toList).trace ++
              [.getwd, .newClient "token", .fetchRepositories, .fetchCommits,
                .fetchLanguages] ++ items₁.filterMap itemEvent ++ (itemEvent item).toList }) :=
  statistic_failure_after_fetches
    (sampleEnv "token" [weekStatsItem, dayStatsItem] (.error "unknown time zone Nowhere/Land"))
    (oneFile "/repo/README.md" "x".toList) "/repo" () () () (by decide) rfl rfl rfl rfl
    (Or.inl ⟨List.mem_cons_of_mem _ (List.mem_cons_self _ _),
      "unknown time zone Nowhere/Land", rfl⟩)

/-- Claim C6, counterexample: with an unresolvable time zone the run fails with
the error of the daily statistic only after the client was created and the
repositories, the commits and the languages were fetched. -/
theorem unresolved_time_zone_counterexample :
    (runE (sampleEnv "token" [dayStatsItem] (.error "unknown time zone Nowhere/Land"))
        (oneFile "/repo/README.md" "x".toList)).1 =
        .error (.dailyStats "unknown time zone Nowhere/Land") ∧
      (runE (sampleEnv "token" [dayStatsItem] (.error "unknown time zone Nowhere/Land"))
        (oneFile "/repo/README.md" "x".toList)).2.trace =
        [.getwd, .newClient "token", .fetchRepositories, .fetchCommits, .fetchLanguages,
          .dailyStats] :=
  ⟨rfl, rfl⟩

/-! ## The claims about `updateReadme` -/

theorem not_containsMarker_of_nearestEnd {s : Text} (h : nearestEnd s = none) :
    ¬ ContainsMarker endName s := by
  rintro ⟨u, m, v, ⟨a, b, ha, hb, rfl⟩, rfl⟩
  have := nearestEnd_isSome ha hb u v
  rw [h] at this
  simp at this

/-- Claim C2: when the README content has no start marker followed by an end
marker, `updateReadme` returns the error whose message is
"could not find README-STATS block"; the world afterwards differs only by the
recorded read, so nothing was written and the file is unchanged. -/
theorem missing_block_is_error (letterOrDigit : Char → Bool) (w : World) (path : String)
    (blob content : Text) (hfile : w.files path = .ok content)
    (hno : ¬ HasMarkerPair content) :
    updateReadme letterOrDigit w path blob =
        (.error .noBlock, { w with trace := w.trace ++ [.readFile path] }) ∧
      UpdateError.noBlock.message = "could not find README-STATS block" := by
  refine ⟨?_, rfl⟩
  have hb : firstBlock content = none := by
    cases h : firstBlock content with
    | none => rfl
    | some b => exact absurd (hasMarkerPair_of_firstBlock h) hno
  exact updateReadme_no_block letterOrDigit w path blob hfile hb

/-- A README whose only end marker comes before its start marker. -/
theorem missing_block_is_error_witness :
    updateReadme asciiLetterOrDigit
        (oneFile "README.md" "# Me\n<!-- README-STATS:END -->\n<!-- README-STATS:START -->\n".toList)
        "README.md" "stats".toList =
        (.error .noBlock,
          { oneFile "README.md"
              "# Me\n<!-- README-STATS:END -->\n<!-- README-STATS:START -->\n".toList with
            trace := [.readFile "README.md"] }) ∧
      UpdateError.noBlock.message = "could not find README-STATS block" :=
  missing_block_is_error asciiLetterOrDigit
    (oneFile "README.md" "# Me\n<!-- README-STATS:END -->\n<!-- README-STATS:START -->\n".toList)
    "README.md" "stats".toList _ rfl
    ((hasMarkerPair_iff _).not.2 (by decide))

/-- Claim C1, as the code has it: for every blob, a successful `updateReadme`
writes a text that begins with the text before the first block of the README
(the block from the leftmost start marker that an end marker follows to the
nearest end marker after it), unchanged; the block is replaced as a whole; and
when no further block follows, the text after the end marker of the block is
kept unchanged as well. -/
theorem frame_of_first_block (letterOrDigit : Char → Bool) (w w₁ : World) (path : String)
    (blob content : Text) (b : Block) (hfile : w.files path = .ok content)
    (hb : firstBlock content = some b)
    (hrun : updateReadme letterOrDigit w path blob = (.ok (), w₁)) :
    content = b.pre ++ b.startMarker ++ b.interior ++ b.endMarker ++ b.rest ∧
      ∃ mid tail, w₁.files path = .ok (b.pre ++ mid ++ tail) ∧
        (firstBlock b.rest = none → tail = b.rest) := by
  constructor
  · have := (firstBlock_sound hb).2.2.2.2
    simpa [Block.whole] using this
  · refine ⟨expand letterOrDigit b.toMatch (replacement blob).length (replacement blob),
      replaceAllLoop re
        (fun m => expand letterOrDigit m (replacement blob).length (replacement blob))
        content.length false [] b.rest, ?_,
      fun hlast => replaceAllLoop_none _ content.length false hlast⟩
    rw [(updateReadme_ok hfile hrun).2]
    unfold ReplaceAllString
    rw [replaceAllLoop_block _ _ _ hb]

/-- The README `pre<!-- README-STATS:START -->old<!-- README-STATS:END -->post` and a blob with a `$`. -/
theorem frame_of_first_block_witness :
    "pre<!-- README-STATS:START -->old<!-- README-STATS:END -->post".toList =
        "pre".toList ++ canonStart ++ "old".toList ++ canonEnd ++ "post".toList ∧
      ∃ mid tail,
        (updateReadme asciiLetterOrDigit
          (oneFile "README.md"
            "pre<!-- README-STATS:START -->old<!-- README-STATS:END -->post".toList)
          "README.md" "new $3".toList).2.files "README.md" =
          .ok ("pre".toList ++ mid ++ tail) ∧
        (firstBlock "post".toList = none → tail = "post".toList) :=
  frame_of_first_block asciiLetterOrDigit
    (oneFile "README.md" "pre<!-- README-STATS:START -->old<!-- README-STATS:END -->post".toList)
    _ "README.md" "new $3".toList _
    ⟨"pre".toList, [' '], [' '], "old".toList, [' '], [' '], "post".toList⟩
    rfl (by decide) (by rfl)

/-- Claim C1, counterexample: a README with two blocks.  The run succeeds.  For
the first start marker and the end marker after it, the text after the end
marker is not kept (the second block in it is replaced); for the second start
marker and the end marker after it, the text before the start marker is not
kept (the first block in it is replaced). -/
theorem frame_counterexample :
    "<!-- README-STATS:START -->a<!-- README-STATS:END -->m<!-- README-STATS:START -->b<!-- README-STATS:END -->".toList =
        [] ++ canonStart ++ "a".toList ++ canonEnd ++
          "m<!-- README-STATS:START -->b<!-- README-STATS:END -->".toList ∧
      "<!-- README-STATS:START -->a<!-- README-STATS:END -->m<!-- README-STATS:START -->b<!-- README-STATS:END -->".toList =
        "<!-- README-STATS:START -->a<!-- README-STATS:END -->m".toList ++ canonStart ++
          "b".toList ++ canonEnd ++ [] ∧
      (updateReadme asciiLetterOrDigit
        (oneFile "README.md"
          "<!-- README-STATS:START -->a<!-- README-STATS:END -->m<!-- README-STATS:START -->b<!-- README-STATS:END -->".toList)
        "README.md" "X".toList).1 = .ok () ∧
      (updateReadme asciiLetterOrDigit
        (oneFile "README.md"
          "<!-- README-STATS:START -->a<!-- README-STATS:END -->m<!-- README-STATS:START -->b<!-- README-STATS:END -->".toList)
        "README.md" "X".toList).2.files "README.md" =
        .ok "<!-- README-STATS:START -->\nX<!-- README-STATS:END -->m<!-- README-STATS:START -->\nX<!-- README-STATS:END -->".toList ∧
      ¬ ("m<!-- README-STATS:START -->b<!-- README-STATS:END -->".toList <:+
        "<!-- README-STATS:START -->\nX<!-- README-STATS:END -->m<!-- README-STATS:START -->\nX<!-- README-STATS:END -->".toList) ∧
      ¬ ("<!-- README-STATS:START -->a<!-- README-STATS:END -->m".toList <+:
        "<!-- README-STATS:START -->\nX<!-- README-STATS:END -->m<!-- README-STATS:START -->\nX<!-- README-STATS:END -->".toList) :=
  ⟨by decide, by decide, by rfl, by rfl, by decide, by decide⟩

/-- Claim C3, as the code has it: after a successful `updateReadme` with a blob
without `$`, the first block of the README is written with the markers in their
spaced form `<!-- README-STATS:START -->` and `<!-- README-STATS:END -->`
(whatever the spacing of the original markers), and the text between them is a
newline followed by the blob; the text before the block is kept. -/
theorem block_written_canonically (letterOrDigit : Char → Bool) (w w₁ : World) (path : String)
    (blob content : Text) (hfile : w.files path = .ok content) (hd : '$' ∉ blob)
    (hrun : updateReadme letterOrDigit w path blob = (.ok (), w₁)) :
    ∃ b tail, firstBlock content = some b ∧
      content = b.pre ++ b.startMarker ++ b.interior ++ b.endMarker ++ b.rest ∧
      w₁.files path =
        .ok (b.pre ++ "<!-- README-STATS:START -->".toList ++ ('\n' :: blob) ++
          "<!-- README-STATS:END -->".toList ++ tail) := by
  obtain ⟨⟨b, hb⟩, hout⟩ := updateReadme_ok hfile hrun
  refine ⟨b, splice blob b.rest, hb, ?_, ?_⟩
  · have := (firstBlock_sound hb).2.2.2.2
    simpa [Block.whole] using this
  · rw [hout, replaceAllString_no_dollar letterOrDigit content hd, splice_eq, hb]
    have h₁ : canonStart = "<!-- README-STATS:START -->".toList := by decide
    have h₂ : canonEnd = "<!-- README-STATS:END -->".toList := by decide
    simp only [h₁, h₂, List.append_assoc, List.cons_append]

/-- A README whose markers have no spaces. -/
theorem block_written_canonically_witness :
    ∃ b tail,
      firstBlock "<!--README-STATS:START-->old<!--README-STATS:END-->".toList = some b ∧
      "<!--README-STATS:START-->old<!--README-STATS:END-->".toList =
        b.pre ++ b.startMarker ++ b.interior ++ b.endMarker ++ b.rest ∧
      (updateReadme asciiLetterOrDigit
        (oneFile "README.md" "<!--README-STATS:START-->old<!--README-STATS:END-->".toList)
        "README.md" "X".toList).2.files "README.md" =
        .ok (b.pre ++ "<!-- README-STATS:START -->".toList ++ ('\n' :: "X".toList) ++
          "<!-- README-STATS:END -->".toList ++ tail) :=
  block_written_canonically asciiLetterOrDigit
    (oneFile "README.md" "<!--README-STATS:START-->old<!--README-STATS:END-->".toList) _
    "README.md" "X".toList _ rfl (by decide) (by rfl)

/-- Claim C3, counterexample: a README whose markers have no spaces.  The run
succeeds; the written start marker is not the original one, and the text
between the written markers is a newline and the blob, not the blob alone. -/
theorem markers_rewritten_counterexample :
    (updateReadme asciiLetterOrDigit
        (oneFile "README.md" "<!--README-STATS:START-->old<!--README-STATS:END-->".toList)
        "README.md" "X".toList).1 = .ok () ∧
      (updateReadme asciiLetterOrDigit
        (oneFile "README.md" "<!--README-STATS:START-->old<!--README-STATS:END-->".toList)
        "README.md" "X".toList).2.files "README.md" =
        .ok ("<!-- README-STATS:START -->".toList ++ "\nX".toList ++
          "<!-- README-STATS:END -->".toList) ∧
      "<!-- README-STATS:START -->".toList ≠ "<!--README-STATS:START-->".toList ∧
      "\nX".toList ≠ "X".toList ∧
      "<!-- README-STATS:START -->".toList ++ "\nX".toList ++ "<!-- README-STATS:END -->".toList ≠
        "<!--README-STATS:START-->".toList ++ "X".toList ++ "<!--README-STATS:END-->".toList :=
  ⟨by rfl, by rfl, by decide, by decide, by decide⟩

/-- Claim C9: for a blob without `$`, the content written by a successful
`updateReadme` is the original content in which every block, found from left to
right, is replaced by `<!-- README-STATS:START -->`, a newline, the blob and
`<!-- README-STATS:END -->`, the text outside the blocks being kept; in
particular, when a second block follows the first one, both are replaced. -/
theorem every_block_replaced (letterOrDigit : Char → Bool) (w w₁ : World) (path : String)
    (blob content : Text) (hfile : w.files path = .ok content) (hd : '$' ∉ blob)
    (hrun : updateReadme letterOrDigit w path blob = (.ok (), w₁)) :
    w₁.files path = .ok (splice blob content) ∧
      ∀ b b₂, firstBlock content = some b → firstBlock b.rest = some b₂ →
        splice blob content =
          b.pre ++ ("<!-- README-STATS:START -->\n".toList ++ blob ++
              "<!-- README-STATS:END -->".toList) ++
            b₂.pre ++ ("<!-- README-STATS:START -->\n".toList ++ blob ++
              "<!-- README-STATS:END -->".toList) ++
            splice blob b₂.rest := by
  constructor
  · rw [(updateReadme_ok hfile hrun).2, replaceAllString_no_dollar letterOrDigit content hd]
  · intro b b₂ hb hb₂
    have e := replacement_eq blob
    unfold replacement at e
    rw [splice_eq, hb]
    simp only []
    rw [splice_eq blob b.rest, hb₂]
    simp only [e, List.append_assoc]

/-- A README with two blocks whose markers are spaced differently: both blocks are replaced. -/
theorem every_block_replaced_witness :
    (updateReadme asciiLetterOrDigit
        (oneFile "README.md"
          "a<!--README-STATS:START-->1<!-- README-STATS:END -->b<!-- README-STATS:START -->2<!--README-STATS:END -->c".toList)
        "README.md" "X".toList).2.files "README.md" =
        .ok (splice "X".toList
          "a<!--README-STATS:START-->1<!-- README-STATS:END -->b<!-- README-STATS:START -->2<!--README-STATS:END -->c".toList) ∧
      splice "X".toList
          "a<!--README-STATS:START-->1<!-- README-STATS:END -->b<!-- README-STATS:START -->2<!--README-STATS:END -->c".toList =
        "a<!-- README-STATS:START -->\nX<!-- README-STATS:END -->b<!-- README-STATS:START -->\nX<!-- README-STATS:END -->c".toList :=
  ⟨(every_block_replaced asciiLetterOrDigit
    (oneFile "README.md"
      "a<!--README-STATS:START-->1<!-- README-STATS:END -->b<!-- README-STATS:START -->2<!--README-STATS:END -->c".toList)
    _ "README.md" "X".toList _ rfl (by decide) (by rfl)).1, by decide⟩

theorem setFile_files_same (w : World) (path : String) (r : Except String Text) :
    (w.setFile path r).files path = r := by
  simp [World.setFile]

/-- Claim C10: for a README content with a start marker followed by an end
marker, a blob without `$` and without an end marker, and a file whose writes
do not fail, `updateReadme` succeeds twice in a row and the second run leaves
the files as the first run left them. -/
theorem update_twice_same (letterOrDigit : Char → Bool) (w : World) (path : String)
    (blob content : Text) (hfile : w.files path = .ok content) (hpair : HasMarkerPair content)
    (hd : '$' ∉ blob) (hend : ¬ ContainsMarker endName blob)
    (hw : ∀ data, w.writeFault path data = none) :
    ∃ w₁ w₂, updateReadme letterOrDigit w path blob = (.ok (), w₁) ∧
      updateReadme letterOrDigit w₁ path blob = (.ok (), w₂) ∧ w₂.files = w₁.files := by
  obtain ⟨b, hb⟩ := Option.isSome_iff_exists.1 ((hasMarkerPair_iff content).1 hpair)
  have hrun₁ := updateReadme_block letterOrDigit w path blob hfile hb
  rw [hw, replaceAllString_no_dollar letterOrDigit content hd] at hrun₁
  simp only [] at hrun₁
  have hb₁ : firstBlock (splice blob content) =
      some ⟨b.pre, [' '], [' '], '\n' :: blob, [' '], [' '], splice blob b.rest⟩ := by
    rw [splice_eq, hb]
    exact firstBlock_written hb hend _
  have hfile₁ : (((w.log (.readFile path)).log (.writeFile path (splice blob content))).setFile
      path (.ok (splice blob content))).files path = .ok (splice blob content) :=
    setFile_files_same _ _ _
  have hrun₂ := updateReadme_block letterOrDigit _ path blob hfile₁ hb₁
  have hw₁ : ∀ data, (((w.log (.readFile path)).log (.writeFile path
      (splice blob content))).setFile path (.ok (splice blob content))).writeFault path data =
      none := hw
  rw [hw₁, replaceAllString_no_dollar letterOrDigit _ hd,
    splice_idem hend _ content (Nat.le_refl _)] at hrun₂
  simp only [] at hrun₂
  refine ⟨_, _, hrun₁, hrun₂, ?_⟩
  funext p
  simp only [World.setFile, World.log]
  by_cases hp : p = path <;> simp [hp]

/-- A README with one block and a blob that contains a start marker. -/
theorem update_twice_same_witness :
    ∃ w₁ w₂,
      updateReadme asciiLetterOrDigit
        (oneFile "README.md" "a<!--README-STATS:START-->1<!-- README-STATS:END -->b".toList)
        "README.md" "<!-- README-STATS:START -->X".toList = (.ok (), w₁) ∧
      updateReadme asciiLetterOrDigit w₁ "README.md" "<!-- README-STATS:START -->X".toList =
        (.ok (), w₂) ∧
      w₂.files = w₁.files :=
  update_twice_same asciiLetterOrDigit
    (oneFile "README.md" "a<!--README-STATS:START-->1<!-- README-STATS:END -->b".toList)
    "README.md" "<!-- README-STATS:START -->X".toList _ rfl
    ((hasMarkerPair_iff _).2 (by decide)) (by decide)
    (not_containsMarker_of_nearestEnd (by decide)) (fun _ => rfl)

end ReadmeStats
